import Mathlib

/-!
# Verification of the orchestrator backend (src/orch/backend.py)

A shallow embedding of the dependency-gated process supervisor in
src/orch/backend.py, together with theorems settling the specification's
claims about it.  Python dicts are modelled as insertion-ordered
association lists (Python 3.7+ dicts preserve insertion order), Python
ints as Int, Python floats (only used for configured timeouts, which are
exact small numbers) as rationals, and the `asyncio` effects of a single
supervisor as an explicit event trace driven by an environment recording
the external outcomes (spawn success, probe success, child exit).
-/

/- ───────────────────────── constants & palette ─────────────────────────
   backend.py lines 22-29. -/

/-- backend.py line 23: global constant READY_TIMEOUT = 30. -/
def READY_TIMEOUT : ℚ := 30

/-- backend.py line 25: DEFAULT_MAX_LINES = 2000. -/
def DEFAULT_MAX_LINES : Int := 2000

/-- backend.py lines 26-29: the ten-entry colour palette TAB10. -/
def TAB10 : List String :=
  ["#1f77b4", "#ff7f0e", "#2ca02c", "#d62728", "#9467bd",
   "#8c564b", "#e377c2", "#7f7f7f", "#bcbd22", "#17becf"]

/-- backend.py lines 63-66: class Kind(str, enum.Enum). -/
inductive Kind where
  | oneshot
  | service
  | daemon
deriving DecidableEq

/-- backend.py lines 68-72: class State(str, enum.Enum). -/
inductive State where
  | pending
  | running
  | ready
  | failed
deriving DecidableEq

/-- backend.py lines 74-89: dataclass TaskCfg.  `workdir` is kept as the
raw string; `Path.expanduser().resolve()` normalisation touches the file
system and no claim depends on it.  The duplicated field declarations in
the Python source (lines 82-89 declare `ready_timeout` and `max_lines`
twice) collapse to single fields. -/
structure TaskCfg where
  name : String
  kind : Kind
  cmd : String
  depends_on : List String
  ready_cmd : Option String
  workdir : String
  ready_timeout : ℚ
  max_lines : Int
deriving DecidableEq

/-- backend.py lines 91-101: dataclass TaskRt.  The `proc` process handle
is not representable and is omitted; `ready` is the latch (an
asyncio.Event: set or not set); times are monotonic-clock readings,
modelled as rationals (0.0 until set). -/
structure TaskRt where
  cfg : TaskCfg
  state : State
  ready : Bool
  colour : String
  start_time : ℚ
  end_time : ℚ
  pty_primary : Int
  pty_secondary : Int
deriving DecidableEq

/- ───────────────────────── association lists ─────────────────────────
   Python dicts preserve insertion order; we model them as lists of
   key/value pairs, looked up by the first matching key. -/

/-- First value bound to key `k`, mirroring Python dict lookup. -/
def alookup {α : Type} (m : List (String × α)) (k : String) : Option α :=
  match m with
  | [] => none
  | (k', v) :: rest => if k' = k then some v else alookup rest k

/-- `d[k] = v` on a Python dict: replace in place if the key exists
(keeping its position), otherwise append at the end. -/
def dictInsert {α : Type} (m : List (String × α)) (k : String) (v : α) :
    List (String × α) :=
  match m with
  | [] => [(k, v)]
  | (k', v') :: rest =>
    if k' = k then (k, v) :: rest else (k', v') :: dictInsert rest k v

/- ───────────────────────── topological planner ─────────────────────────
   backend.py lines 131-148: def topo_order. -/

/-- Line 132: `indeg = {n: len(c.depends_on) for n, c in cfgs.items()}`.
Values are Python ints. -/
def initIndeg (cfgs : List (String × TaskCfg)) : List (String × Int) :=
  cfgs.map (fun p => (p.1, (p.2.depends_on.length : Int)))

/-- Line 136: `child.setdefault(d, []).append(c.name)`. -/
def childAdd (m : List (String × List String)) (d : String) (name : String) :
    List (String × List String) :=
  match m with
  | [] => [(d, [name])]
  | (k, v) :: rest =>
    if k = d then (k, v ++ [name]) :: rest else (k, v) :: childAdd rest d name

/-- Lines 133-136: build the successor map by iterating the configurations
in insertion order and their dependency lists in order. -/
def initChild (cfgs : List (String × TaskCfg)) : List (String × List String) :=
  cfgs.foldl (fun m p => p.2.depends_on.foldl (fun m' d => childAdd m' d p.1) m) []

/-- Line 143: `indeg[ch] -= 1`.  Every decremented key is a task name and
hence present in `indeg` (a missing key would be a KeyError in Python and
is unreachable); on a missing key this model leaves the map unchanged. -/
def decr (indeg : List (String × Int)) (k : String) : List (String × Int) :=
  match indeg with
  | [] => []
  | (n, v) :: rest =>
    if n = k then (n, v - 1) :: rest else (n, v) :: decr rest k

/-- Lines 142-145: the inner `for ch in child.get(n, [])` loop: decrement
each successor, collecting (in iteration order) those whose in-degree
reaches exactly 0, which the while loop appends to the queue. -/
def processChildren (indeg : List (String × Int)) (chs : List String) :
    List (String × Int) × List String :=
  match chs with
  | [] => (indeg, [])
  | ch :: rest =>
    let indeg' := decr indeg ch
    let tail := processChildren indeg' rest
    (tail.1, (if alookup indeg' ch = some 0 then [ch] else []) ++ tail.2)

/-- Sum of the positive in-degrees; the termination measure of the while
loop (together with the queue length). -/
def sumPos (indeg : List (String × Int)) : Nat :=
  (indeg.map (fun p => p.2.toNat)).sum

/-- Lines 139-145: the `while q` loop.  `order` is accumulated in reverse
(the Python code appends). -/
def topoLoop (child : List (String × List String)) (indeg : List (String × Int))
    (q : List String) (order : List String) : List String :=
  match q with
  | [] => order.reverse
  | n :: q' =>
    topoLoop child (processChildren indeg ((alookup child n).getD [])).1
      (q' ++ (processChildren indeg ((alookup child n).getD [])).2)
      (n :: order)
termination_by sumPos indeg + q.length
decreasing_by
  have decrStep : ∀ (ind : List (String × Int)) (c : String),
      sumPos (decr ind c) +
        (if alookup (decr ind c) c = some 0 then 1 else 0) ≤ sumPos ind := by
    intro ind c
    induction ind with
    | nil => simp [decr, alookup, sumPos]
    | cons p tl ih =>
      obtain ⟨m, v⟩ := p
      by_cases h : m = c
      · subst h
        simp [decr, alookup, sumPos]
        split <;> omega
      · simp only [decr, alookup, if_neg h, sumPos, List.map_cons, List.sum_cons]
        simp only [sumPos] at ih
        omega
  have key : ∀ (chs : List String) (ind : List (String × Int)),
      sumPos (processChildren ind chs).1 + (processChildren ind chs).2.length
        ≤ sumPos ind := by
    intro chs
    induction chs with
    | nil => intro ind; simp [processChildren]
    | cons c tl ih =>
      intro ind
      have h1 := decrStep ind c
      have h2 := ih (decr ind c)
      simp only [processChildren, List.length_append]
      by_cases h : alookup (decr ind c) c = some 0
      · simp only [if_pos h] at *
        simp only [List.length_cons, List.length_nil]
        omega
      · simp only [if_neg h] at *
        simp only [List.length_nil]
        omega
  have hk := key ((alookup child ch).getD []) indeg
  simp only [List.length_append, List.length_cons]
  omega

/-- Lines 137-145 packaged: initial queue (`deque(n for n, d in
indeg.items() if d == 0)`, i.e. the zero-in-degree names in insertion
order) fed to the while loop. -/
def kahnOrder (cfgs : List (String × TaskCfg)) : List String :=
  topoLoop (initChild cfgs) (initIndeg cfgs)
    ((initIndeg cfgs).filterMap (fun p => if p.2 = 0 then some p.1 else none)) []

/-- backend.py lines 131-148: def topo_order.  Raising
`ValueError("dependency cycle")` is modelled as `Except.error`. -/
def topo_order (cfgs : List (String × TaskCfg)) : Except String (List String) :=
  if (kahnOrder cfgs).length ≠ cfgs.length then Except.error "dependency cycle"
  else Except.ok (kahnOrder cfgs)

/-- The dependency list of the task named `n` (empty if no such task);
used only to state properties of the planner. -/
def depsOf (cfgs : List (String × TaskCfg)) (n : String) : List String :=
  ((alookup cfgs n).map TaskCfg.depends_on).getD []

/-- How many dependency occurrences of task `n` are not yet in `order` —
the value Kahn's algorithm keeps in `indeg[n]`. -/
def pendingDeg (cfgs : List (String × TaskCfg)) (order : List String)
    (n : String) : Nat :=
  ((depsOf cfgs n).filter (fun d => decide (d ∉ order))).length

/-- The invariant of the while loop of `topo_order`: `order` is the
reversed list of tasks output so far, `q` the queue, `indeg` the current
in-degree map. -/
structure KahnInv (cfgs : List (String × TaskCfg)) (indeg : List (String × Int))
    (q : List String) (order : List String) : Prop where
  keys_eq : indeg.map Prod.fst = cfgs.map Prod.fst
  deg : ∀ n ∈ cfgs.map Prod.fst,
    alookup indeg n = some ((pendingDeg cfgs order n : Int))
  order_nodup : order.Nodup
  order_sub : ∀ n ∈ order, n ∈ cfgs.map Prod.fst
  q_nodup : q.Nodup
  q_sub : ∀ n ∈ q, n ∈ cfgs.map Prod.fst
  q_not_order : ∀ n ∈ q, n ∉ order
  q_iff : ∀ n ∈ cfgs.map Prod.fst,
    (n ∈ q ↔ n ∉ order ∧ pendingDeg cfgs order n = 0)
  order_deg : ∀ n ∈ order, pendingDeg cfgs order n = 0
  order_sorted : ∀ pre n post, order = pre ++ n :: post →
    ∀ d ∈ depsOf cfgs n, d ∈ post

/- ───────────────────────── configuration loading ─────────────────────────
   backend.py lines 103-129: def load_config.  The TOML parse itself is
   external (tomllib); its result is the input here: the `[defaults]`
   table and the list of `[[task]]` rows, each field `none` when absent. -/

/-- One `[[task]]` row as parsed by tomllib (backend.py lines 113-128):
every `row.get(...)` is an `Option` field here. -/
structure RawTask where
  name : Option String
  kind : Option String
  cmd : Option String
  depends_on : Option (List String)
  ready_cmd : Option String
  workdir : Option String
  ready_timeout : Option ℚ
  max_lines : Option Int
deriving DecidableEq

/-- The parsed TOML document (backend.py lines 104-113): the `defaults`
table fields and the `task` array. -/
structure RawConfig where
  prefix_cmd : Option String
  workdir : Option String
  ready_timeout : Option ℚ
  max_lines : Option Int
  task : List RawTask
deriving DecidableEq

/-- `Kind(...)` (backend.py line 121): constructing the enum from a string,
raising ValueError on an unrecognised kind. -/
def parseKind : String → Option Kind
  | "oneshot" => some Kind.oneshot
  | "service" => some Kind.service
  | "daemon" => some Kind.daemon
  | _ => none

/-- backend.py lines 103-129: def load_config.  Path normalisation
(`expanduser().resolve()`) is not modelled; working directories carry the
configured strings.  A `ValueError` escaping `Kind(...)` is an
`Except.error`. -/
def load_config (raw : RawConfig) : Except String (List (String × TaskCfg) × Int) := do
  let prefix_cmd := raw.prefix_cmd.getD ""
  let def_wd := raw.workdir.getD "."
  let def_ready_timeout := raw.ready_timeout.getD READY_TIMEOUT
  let def_max_lines := raw.max_lines.getD DEFAULT_MAX_LINES
  let out ← raw.task.foldlM
    (fun out row => do
      let cmd0 := row.cmd.getD ""
      let cmd := if prefix_cmd ≠ "" then prefix_cmd ++ " && " ++ cmd0 else cmd0
      match parseKind (row.kind.getD "oneshot") with
      | none => Except.error ("not a valid Kind: " ++ row.kind.getD "oneshot")
      | some kind =>
        pure (dictInsert out (row.name.getD "")
          { name := row.name.getD ""
            kind := kind
            cmd := cmd
            depends_on := row.depends_on.getD []
            ready_cmd := row.ready_cmd
            workdir := row.workdir.getD def_wd
            ready_timeout := row.ready_timeout.getD def_ready_timeout
            max_lines := row.max_lines.getD def_max_lines }))
    []
  pure (out, def_max_lines)

/- ───────────────────────── orchestrator construction ─────────────────────────
   backend.py lines 150-163: class OrchestratorBackend. -/

/-- The orchestrator's per-task runtime map (`self.rt`), in insertion
order.  The log queue carries strings and is left implicit; log records
appear in the supervisor traces below. -/
structure Backend where
  rt : List (String × TaskRt)
deriving DecidableEq

/-- backend.py lines 152-158: `OrchestratorBackend.__init__`.  Performs no
validation: it builds one TaskRt per configuration, cycling the TAB10
palette in insertion order. -/
def mkBackend (cfgs : List (String × TaskCfg)) : Backend :=
  { rt := cfgs.enum.map (fun p =>
      (p.2.1,
        { cfg := p.2.2
          state := State.pending
          ready := false
          colour := TAB10.getD (p.1 % TAB10.length) ""
          start_time := 0
          end_time := 0
          pty_primary := -1
          pty_secondary := -1 })) }

/-- backend.py line 161: the first step of `run()` builds
`{n: tr.cfg for n, tr in self.rt.items()}` and calls `topo_order` on it;
a dependency cycle therefore surfaces only here, as the `ValueError`
raised out of `run()`. -/
def runPlan (b : Backend) : Except String (List String) :=
  topo_order (b.rt.map (fun p => (p.1, p.2.cfg)))

/- ───────────────────────── the task supervisor ─────────────────────────
   backend.py lines 165-240: OrchestratorBackend._run_task and
   _probe_ready, modelled as the sequence of observable actions one
   supervisor performs after its dependency wait (line 167) releases it.
   The outcomes decided outside the interpreter (by the OS and the child)
   are an explicit environment. -/

/-- The observable actions of one supervisor run. -/
inductive Event where
  | log (record : String)
  | setState (s : State)
  | setLatch
  | setStartTime
  | setEndTime
  | raise
deriving DecidableEq

/-- External outcomes driving one supervisor run:
* `spawnOk`    — `create_subprocess_shell` (line 174) succeeded; when
  false the raised OSError propagates (there is no try/except around it);
* `probeSucceeds` — some iteration of `_probe_ready`'s loop (lines
  226-240) sees the probe exit 0 before `asyncio.wait_for`'s deadline
  (line 205) expires;
* `exits`      — the child process terminates, so `tr.proc.wait()`
  (lines 215/220) returns;
* `exitCode`   — the child's exit code when it does. -/
structure TaskEnv where
  spawnOk : Bool
  probeSucceeds : Bool
  exits : Bool
  exitCode : Int
deriving DecidableEq

/-- Python truthiness of `tr.cfg.ready_cmd` (line 203): not None and not
the empty string. -/
def truthyReadyCmd (cfg : TaskCfg) : Bool :=
  match cfg.ready_cmd with
  | none => false
  | some s => s ≠ ""

/-- Line 203: `tr.cfg.kind is Kind.SERVICE and tr.cfg.ready_cmd` — the
guard deciding whether the readiness prober runs at all. -/
def probeGate (cfg : TaskCfg) : Bool :=
  cfg.kind = Kind.service && truthyReadyCmd cfg

/-- Lines 168-170: enter Running, record start_time, emit the started
record. -/
def startEvents (cfg : TaskCfg) : List Event :=
  [Event.setState State.running, Event.setStartTime,
   Event.log ("[" ++ cfg.name ++ "] started")]

/-- Lines 202-211: ready detection.  Service with a truthy ready_cmd runs
the prober under `wait_for`; on success `_probe_ready` (lines 236-238)
sets READY, sets the latch and logs, on timeout lines 207-208 set FAILED
and log READY TIMEOUT without touching the latch.  Any other Service or
Daemon becomes READY immediately and its latch is set (lines 209-211).
Oneshot does nothing here. -/
def readinessEvents (cfg : TaskCfg) (env : TaskEnv) : List Event :=
  if probeGate cfg then
    if env.probeSucceeds then
      [Event.setState State.ready, Event.setLatch,
       Event.log ("[" ++ cfg.name ++ "] ready")]
    else
      [Event.setState State.failed,
       Event.log ("[" ++ cfg.name ++ "] READY TIMEOUT")]
  else if cfg.kind = Kind.service || cfg.kind = Kind.daemon then
    [Event.setState State.ready, Event.setLatch]
  else []

/-- Lines 213-223: wait for the child to exit.  For Oneshot: record
end_time, set READY on exit code 0 and FAILED otherwise, then — in either
case — set the ready latch (line 218).  For Service/Daemon: record
end_time and set FAILED exactly when the exit code is non-zero. -/
def exitEvents (cfg : TaskCfg) (env : TaskEnv) : List Event :=
  if cfg.kind = Kind.oneshot then
    [Event.setEndTime,
     Event.setState (if env.exitCode = 0 then State.ready else State.failed),
     Event.setLatch]
  else
    Event.setEndTime ::
      (if env.exitCode ≠ 0 then [Event.setState State.failed] else [])

/-- backend.py lines 165-223: the actions of `_run_task` once the
dependency wait has released it.  A failed spawn raises out of the
supervisor (nothing catches it), which ends the trace; a child that never
exits leaves `tr.proc.wait()` suspended forever, so the exit events never
happen.  The pump's own log records run concurrently and are modelled
separately (`pumpRecords`). -/
def taskTrace (cfg : TaskCfg) (env : TaskEnv) : List Event :=
  startEvents cfg ++
    (if !env.spawnOk then [Event.raise]
     else readinessEvents cfg env ++
       (if env.exits then exitEvents cfg env else []))

/-- One event's effect on `tr.state`. -/
def applyEvent (s : State) (e : Event) : State :=
  match e with
  | Event.setState s' => s'
  | _ => s

/-- The task state after a (partial) trace, starting from PENDING. -/
def finalState (tr : List Event) : State :=
  tr.foldl applyEvent State.pending

/-- Whether an event is the `tr.ready.set()` call. -/
def isSetLatch : Event → Bool
  | Event.setLatch => true
  | _ => false

/-- How many times the supervisor run calls `tr.ready.set()`. -/
def latchCount (tr : List Event) : Nat :=
  tr.countP isSetLatch

/-- Whether the run ever sets the ready latch. -/
def latchEverSet (cfg : TaskCfg) (env : TaskEnv) : Bool :=
  (taskTrace cfg env).any isSetLatch

/-- Whether an exception escapes the supervisor. -/
def supervisorRaises (cfg : TaskCfg) (env : TaskEnv) : Bool :=
  (taskTrace cfg env).any (fun e => e = Event.raise)

/-- The task state after spawn and ready detection but before the child's
exit is observed — the state the exit handling starts from. -/
def preExitState (cfg : TaskCfg) (env : TaskEnv) : State :=
  finalState (startEvents cfg ++ readinessEvents cfg env)

/-- The timeout actually handed to `asyncio.wait_for` around
`_probe_ready` (backend.py line 205): the module constant READY_TIMEOUT.
The call site does not consult `tr.cfg.ready_timeout`. -/
def probeDeadline (_cfg : TaskCfg) : ℚ :=
  READY_TIMEOUT

/- ───────────────────────── the dependency barrier ─────────────────────────
   backend.py line 167: `await asyncio.gather(*(self.rt[d].ready.wait()
   for d in tr.cfg.depends_on))`. -/

/-- One task of a whole run: its configuration plus the environment its
supervisor would see. -/
structure SimTask where
  cfg : TaskCfg
  env : TaskEnv
deriving DecidableEq

/-- Whether task `n`'s supervisor is ever released past the dependency
wait of line 167: each dependency's latch must eventually be set, which
needs that dependency's own supervisor to have been released and its run
to call `ready.set()`.  `fuel` bounds the dependency-chain depth (any
fuel at least the number of tasks is enough).  A dependency name missing
from the runtime map blocks forever (in Python, `run()` would already
have failed in `topo_order`). -/
def released (sys : List (String × SimTask)) : Nat → String → Bool
  | 0, _ => false
  | fuel + 1, n =>
    match alookup sys n with
    | none => false
    | some t =>
      t.cfg.depends_on.all (fun d =>
        match alookup sys d with
        | none => false
        | some td => released sys fuel d && latchEverSet td.cfg td.env)

/-- Whether `run()` (lines 160-163) raises: `asyncio.gather` propagates
the exception of any supervisor that runs and raises. -/
def runRaises (sys : List (String × SimTask)) (fuel : Nat) : Bool :=
  sys.any (fun p => released sys fuel p.1 && supervisorRaises p.2.cfg p.2.env)

/- ───────────────────────── the PTY I/O pump ─────────────────────────
   backend.py lines 188-200: the `pump` closure.  Each `os.read` chunk is
   decoded and split independently. -/

/-- The U+FFFD replacement character. -/
def replChar : Char := Char.ofNat 0xFFFD

/-- Is `b` a UTF-8 continuation byte (0x80-0xBF)? -/
def contOk (b : Nat) : Bool := 0x80 ≤ b && b ≤ 0xBF

/-- Valid range of the first continuation byte after a three-byte lead. -/
def cont3Ok (b b1 : Nat) : Bool :=
  if b = 0xE0 then 0xA0 ≤ b1 && b1 ≤ 0xBF
  else if b = 0xED then 0x80 ≤ b1 && b1 ≤ 0x9F
  else contOk b1

/-- Valid range of the first continuation byte after a four-byte lead. -/
def cont4Ok (b b1 : Nat) : Bool :=
  if b = 0xF0 then 0x90 ≤ b1 && b1 ≤ 0xBF
  else if b = 0xF4 then 0x80 ≤ b1 && b1 ≤ 0x8F
  else contOk b1

/-- `chunk.decode(errors="replace")` (backend.py line 197): UTF-8 with
each maximal ill-formed subsequence replaced by one U+FFFD (the Unicode
substitution practice CPython's utf-8 codec implements). -/
def decodeReplace : List Nat → List Char
  | [] => []
  | b :: bs =>
    if b ≤ 0x7F then Char.ofNat b :: decodeReplace bs
    else if 0xC2 ≤ b && b ≤ 0xDF then
      match bs with
      | [] => [replChar]
      | b1 :: bs1 =>
        if contOk b1 then
          Char.ofNat ((b - 0xC0) * 0x40 + (b1 - 0x80)) :: decodeReplace bs1
        else replChar :: decodeReplace (b1 :: bs1)
    else if 0xE0 ≤ b && b ≤ 0xEF then
      match bs with
      | [] => [replChar]
      | b1 :: bs1 =>
        if cont3Ok b b1 then
          match bs1 with
          | [] => [replChar]
          | b2 :: bs2 =>
            if contOk b2 then
              Char.ofNat ((b - 0xE0) * 0x1000 + (b1 - 0x80) * 0x40 + (b2 - 0x80))
                :: decodeReplace bs2
            else replChar :: decodeReplace (b2 :: bs2)
        else replChar :: decodeReplace (b1 :: bs1)
    else if 0xF0 ≤ b && b ≤ 0xF4 then
      match bs with
      | [] => [replChar]
      | b1 :: bs1 =>
        if cont4Ok b b1 then
          match bs1 with
          | [] => [replChar]
          | b2 :: bs2 =>
            if contOk b2 then
              match bs2 with
              | [] => [replChar]
              | b3 :: bs3 =>
                if contOk b3 then
                  Char.ofNat ((b - 0xF0) * 0x40000 + (b1 - 0x80) * 0x1000 +
                      (b2 - 0x80) * 0x40 + (b3 - 0x80)) :: decodeReplace bs3
                else replChar :: decodeReplace (b3 :: bs3)
            else replChar :: decodeReplace (b2 :: bs2)
        else replChar :: decodeReplace (b1 :: bs1)
    else replChar :: decodeReplace bs

/-- The line boundaries `str.splitlines` recognises. -/
def isLineBreak (c : Char) : Bool :=
  c = '\n' || c = '\r' || c = Char.ofNat 0x0B || c = Char.ofNat 0x0C ||
  c = Char.ofNat 0x1C || c = Char.ofNat 0x1D || c = Char.ofNat 0x1E ||
  c = Char.ofNat 0x85 || c = Char.ofNat 0x2028 || c = Char.ofNat 0x2029

/-- Worker for `pySplitlines`; `acc` holds the current line reversed.
CRLF counts as a single boundary; a final unterminated line is kept.  The
last-character cases are written out so the recursion is structural. -/
def splitAux : List Char → List Char → List (List Char)
  | [], acc => if acc.isEmpty then [] else [acc.reverse]
  | c :: cs, acc =>
    match cs with
    | c2 :: cs' =>
      if c = '\r' && c2 = '\n' then acc.reverse :: splitAux cs' []
      else if isLineBreak c then acc.reverse :: splitAux (c2 :: cs') []
      else splitAux (c2 :: cs') (c :: acc)
    | [] =>
      if isLineBreak c then [acc.reverse]
      else [(c :: acc).reverse]

/-- `text.splitlines()` (backend.py line 198): split on the Python line
boundaries, treating CRLF as one boundary, keeping a trailing unterminated
line, and dropping the terminators. -/
def pySplitlines (cs : List Char) : List (List Char) :=
  splitAux cs []

/-- Line 199: the record the pump enqueues for one output line. -/
def pumpRecord (name : String) (line : List Char) : String :=
  "[" ++ name ++ "] │ " ++ String.mk line

/-- backend.py lines 188-199: the records the pump emits for a sequence of
`os.read` chunks — each chunk (at most 1024 bytes) decoded with
replacement and split into lines independently of its neighbours. -/
def pumpRecords (name : String) (chunks : List (List Nat)) : List String :=
  (chunks.map (fun c => (pySplitlines (decodeReplace c)).map (pumpRecord name))).flatten

/-- Modelled from the spec's comparison point, not from the code: the
records one would get by decoding and splitting the child's whole byte
stream at once («the child's byte stream split by line terminators»). -/
def wholeStreamRecords (name : String) (stream : List Nat) : List String :=
  (pySplitlines (decodeReplace stream)).map (pumpRecord name)

/- ───────────────────────── concrete fixtures ─────────────────────────
   Small concrete configurations and environments used by the
   counterexamples and witnesses below.  They mirror the spec's own test
   scenarios (§8). -/

/-- Scenario «Oneshot failure»: task `bad` runs `exit 3`. -/
def badCfg : TaskCfg :=
  { name := "bad", kind := Kind.oneshot, cmd := "exit 3", depends_on := [],
    ready_cmd := none, workdir := ".", ready_timeout := 30, max_lines := 2000 }

/-- Environment of `bad`: spawn succeeds, the child exits with code 3. -/
def badEnv : TaskEnv :=
  { spawnOk := true, probeSucceeds := false, exits := true, exitCode := 3 }

/-- An environment whose child exits cleanly with code 0. -/
def okOneshotEnv : TaskEnv :=
  { spawnOk := true, probeSucceeds := false, exits := true, exitCode := 0 }

/-- An environment where spawning the child fails (bad shell/workdir). -/
def spawnFailEnv : TaskEnv :=
  { spawnOk := false, probeSucceeds := false, exits := false, exitCode := 0 }

/-- A downstream Oneshot depending on `bad`. -/
def depCfg : TaskCfg :=
  { name := "dep", kind := Kind.oneshot, cmd := "echo ok", depends_on := ["bad"],
    ready_cmd := none, workdir := ".", ready_timeout := 30, max_lines := 2000 }

/-- Scenario «Readiness timeout»: a Service with a probe and
`ready_timeout = 1`. -/
def webCfg : TaskCfg :=
  { name := "web", kind := Kind.service, cmd := "python -m http.server 9781",
    depends_on := [], ready_cmd := some "nc -z localhost 9781", workdir := ".",
    ready_timeout := 1, max_lines := 2000 }

/-- Environment of `web` when its probe never succeeds (the long-lived
child does not exit). -/
def webTimeoutEnv : TaskEnv :=
  { spawnOk := true, probeSucceeds := false, exits := false, exitCode := 0 }

/-- Environment of `web` when a probe run exits 0 in time. -/
def webOkEnv : TaskEnv :=
  { spawnOk := true, probeSucceeds := true, exits := false, exitCode := 0 }

/-- A Daemon carrying a ready_cmd (which a Daemon never uses). -/
def watcherCfg : TaskCfg :=
  { name := "watcher", kind := Kind.daemon, cmd := "tail -f /dev/null",
    depends_on := [], ready_cmd := some "true", workdir := ".",
    ready_timeout := 30, max_lines := 2000 }

/-- A Oneshot depending on `web`. -/
def webDepCfg : TaskCfg :=
  { name := "dep", kind := Kind.oneshot, cmd := "echo", depends_on := ["web"],
    ready_cmd := none, workdir := ".", ready_timeout := 30, max_lines := 2000 }

/-- Run with `bad` and its dependent `dep`. -/
def sysBadDep : List (String × SimTask) :=
  [("bad", { cfg := badCfg, env := badEnv }),
   ("dep", { cfg := depCfg, env := okOneshotEnv })]

/-- Run with `web` (probe timing out) and its dependent `dep`. -/
def sysWebDep : List (String × SimTask) :=
  [("web", { cfg := webCfg, env := webTimeoutEnv }),
   ("dep", { cfg := webDepCfg, env := okOneshotEnv })]

/-- Raw row `a` depending on `b`. -/
def rowA : RawTask :=
  { name := some "a", kind := some "oneshot", cmd := some "echo a",
    depends_on := some ["b"], ready_cmd := none, workdir := none,
    ready_timeout := none, max_lines := none }

/-- Raw row `b` depending on `a`. -/
def rowB : RawTask :=
  { name := some "b", kind := some "oneshot", cmd := some "echo b",
    depends_on := some ["a"], ready_cmd := none, workdir := none,
    ready_timeout := none, max_lines := none }

/-- Scenario «Cycle of two tasks»: a depends on b, b depends on a. -/
def cyclicRaw : RawConfig :=
  { prefix_cmd := none, workdir := none, ready_timeout := none,
    max_lines := none, task := [rowA, rowB] }

/-- Two raw rows sharing the name `x`. -/
def dupRaw : RawConfig :=
  { prefix_cmd := none, workdir := none, ready_timeout := none,
    max_lines := none,
    task :=
      [{ name := some "x", kind := some "oneshot", cmd := some "first",
         depends_on := none, ready_cmd := none, workdir := none,
         ready_timeout := none, max_lines := none },
       { name := some "x", kind := some "oneshot", cmd := some "second",
         depends_on := none, ready_cmd := none, workdir := none,
         ready_timeout := none, max_lines := none }]}

/-- Independent task `a` for the planner fixtures. -/
def planACfg : TaskCfg :=
  { name := "a", kind := Kind.oneshot, cmd := "echo a", depends_on := [],
    ready_cmd := none, workdir := ".", ready_timeout := 30, max_lines := 2000 }

/-- Task `b` depending on `a` for the planner fixtures. -/
def planBCfg : TaskCfg :=
  { name := "b", kind := Kind.oneshot, cmd := "echo b", depends_on := ["a"],
    ready_cmd := none, workdir := ".", ready_timeout := 30, max_lines := 2000 }

/-- A mapping listing `b` before its dependency `a`. -/
def planCfgs : List (String × TaskCfg) := [("b", planBCfg), ("a", planACfg)]

/-- Parsed task `a` of a two-cycle: depends on `b`. -/
def cycACfg : TaskCfg :=
  { name := "a", kind := Kind.oneshot, cmd := "echo a", depends_on := ["b"],
    ready_cmd := none, workdir := ".", ready_timeout := 30, max_lines := 2000 }

/-- Parsed task `b` of a two-cycle: depends on `a`. -/
def cycBCfg : TaskCfg :=
  { name := "b", kind := Kind.oneshot, cmd := "echo b", depends_on := ["a"],
    ready_cmd := none, workdir := ".", ready_timeout := 30, max_lines := 2000 }

/-- The parsed two-cycle mapping. -/
def cycCfgs : List (String × TaskCfg) := [("a", cycACfg), ("b", cycBCfg)]

/-- A task depending on a name no task defines. -/
def soloCfg : TaskCfg :=
  { name := "solo", kind := Kind.oneshot, cmd := "echo solo",
    depends_on := ["ghost"], ready_cmd := none, workdir := ".",
    ready_timeout := 30, max_lines := 2000 }

/-- A mapping with an unresolvable dependency name. -/
def ghostCfgs : List (String × TaskCfg) := [("solo", soloCfg)]

/- ═════════════════════════ theorems ═════════════════════════ -/

/-- A successful lookup finds an actual entry of the list. -/
theorem alookup_mem {α : Type} (m : List (String × α)) (k : String) (v : α)
    (h : alookup m k = some v) : (k, v) ∈ m := by
  induction m with
  | nil => simp [alookup] at h
  | cons p rest ih =>
    obtain ⟨k', v'⟩ := p
    by_cases hk : k' = k
    · subst hk
      simp [alookup] at h
      simp [h]
    · simp [alookup, hk] at h
      exact List.mem_cons_of_mem _ (ih h)

/-- C10: a Daemon never runs the readiness prober, even when its
configuration carries a ready_cmd: the guard of backend.py line 203
requires kind Service, so immediately after spawn a Daemon is set Ready
and its latch is set, exactly as for a Daemon without a probe. -/
theorem claim_C10 :
    (∀ cfg : TaskCfg, probeGate cfg = true → cfg.kind = Kind.service) ∧
    ∀ (cfg : TaskCfg) (env : TaskEnv), cfg.kind = Kind.daemon →
      probeGate cfg = false ∧
      readinessEvents cfg env = [Event.setState State.ready, Event.setLatch] ∧
      (env.spawnOk = true →
        taskTrace cfg env =
          startEvents cfg ++ ([Event.setState State.ready, Event.setLatch] ++
            (if env.exits then exitEvents cfg env else []))) := by
  constructor
  · intro cfg h
    simp [probeGate] at h
    exact h.1
  · intro cfg env hk
    have hg : probeGate cfg = false := by simp [probeGate, hk]
    refine ⟨hg, ?_, ?_⟩
    · simp [readinessEvents, hg, hk]
    · intro hs
      simp [taskTrace, hs, readinessEvents, hg, hk]

/-- Witness for C10 at the Daemon `watcher`, which carries a ready_cmd. -/
theorem claim_C10_witness :
    watcherCfg.kind = Kind.daemon ∧ watcherCfg.ready_cmd = some "true" ∧
    probeGate watcherCfg = false ∧
    readinessEvents watcherCfg badEnv = [Event.setState State.ready, Event.setLatch] :=
  ⟨rfl, rfl, (claim_C10.2 watcherCfg badEnv rfl).1,
    (claim_C10.2 watcherCfg badEnv rfl).2.1⟩

/-- C3: when the supervised child exits, end_time is recorded, and the
state is finalized per backend.py lines 213-223: Oneshot — exit 0 gives
Ready, any other code gives Failed, and the latch is set; Service/Daemon —
a non-zero code forces Failed regardless of any prior Ready, while exit 0
leaves the state exactly as it was before the exit was observed. -/
theorem claim_C3 :
    ∀ (cfg : TaskCfg) (env : TaskEnv), env.spawnOk = true → env.exits = true →
      Event.setEndTime ∈ taskTrace cfg env ∧
      (cfg.kind = Kind.oneshot →
        finalState (taskTrace cfg env) =
            (if env.exitCode = 0 then State.ready else State.failed) ∧
          latchEverSet cfg env = true) ∧
      (cfg.kind ≠ Kind.oneshot →
        (env.exitCode ≠ 0 → finalState (taskTrace cfg env) = State.failed) ∧
        (env.exitCode = 0 → finalState (taskTrace cfg env) = preExitState cfg env)) := by
  intro cfg env hs he
  have htr : taskTrace cfg env =
      startEvents cfg ++ (readinessEvents cfg env ++ exitEvents cfg env) := by
    simp [taskTrace, hs, he]
  refine ⟨?_, ?_, ?_⟩
  · rw [htr]
    by_cases hk : cfg.kind = Kind.oneshot <;> simp [exitEvents, hk]
  · intro hk
    have hg : probeGate cfg = false := by simp [probeGate, hk]
    constructor
    · rw [htr]
      simp [finalState, List.foldl_append, startEvents, readinessEvents,
        exitEvents, hg, hk, applyEvent]
    · simp [latchEverSet, taskTrace, hs, he, exitEvents, hk, isSetLatch]
  · intro hk
    constructor
    · intro hc
      rw [htr]
      simp [finalState, List.foldl_append, exitEvents, hk, hc, applyEvent]
    · intro hc
      rw [htr]
      simp [finalState, preExitState, List.foldl_append, exitEvents, hk, hc,
        applyEvent]

/-- Witness for C3 at the failing Oneshot `bad` (exit code 3). -/
theorem claim_C3_witness :
    badEnv.spawnOk = true ∧ badEnv.exits = true ∧
    finalState (taskTrace badCfg badEnv) = State.failed ∧
    latchEverSet badCfg badEnv = true := by
  have h := claim_C3 badCfg badEnv rfl rfl
  exact ⟨rfl, rfl, ((h.2.1 rfl).1).trans (by decide), (h.2.1 rfl).2⟩

/-- C6 is false on the code: nothing catches an exception from
`create_subprocess_shell` (backend.py line 174), so a failed spawn leaves
the task in Running — not Failed — and the exception escapes the
supervisor. -/
theorem claim_C6_counterexample :
    supervisorRaises badCfg spawnFailEnv = true ∧
    finalState (taskTrace badCfg spawnFailEnv) = State.running ∧
    ¬ finalState (taskTrace badCfg spawnFailEnv) = State.failed := by
  decide

/-- C6 as amended: when spawning fails the supervisor does not return
cleanly — the exception propagates, the task stays in Running with its
latch unset, no Failed transition or failure record is produced, and
`run()` (which gathers the supervisors) raises whenever that task's
supervisor was released. -/
theorem claim_C6_amended :
    ∀ (cfg : TaskCfg) (env : TaskEnv), env.spawnOk = false →
      supervisorRaises cfg env = true ∧
      finalState (taskTrace cfg env) = State.running ∧
      latchEverSet cfg env = false ∧
      ∀ (sys : List (String × SimTask)) (fuel : Nat) (n : String),
        alookup sys n = some { cfg := cfg, env := env } →
        released sys fuel n = true → runRaises sys fuel = true := by
  intro cfg env hs
  have htr : taskTrace cfg env = startEvents cfg ++ [Event.raise] := by
    simp [taskTrace, hs]
  have hraise : supervisorRaises cfg env = true := by
    simp [supervisorRaises, htr]
  refine ⟨hraise, ?_, ?_, ?_⟩
  · simp [finalState, htr, startEvents, List.foldl_append, applyEvent]
  · simp [latchEverSet, htr, startEvents, isSetLatch]
  · intro sys fuel n hl hr
    have hmem : (n, ({ cfg := cfg, env := env } : SimTask)) ∈ sys :=
      alookup_mem _ _ _ hl
    simp only [runRaises, List.any_eq_true]
    exact ⟨(n, { cfg := cfg, env := env }), hmem, by simp [hr, hraise]⟩

/-- Witness for C6 (amended) at `bad` with a failing spawn, alone in the
run. -/
theorem claim_C6_witness :
    spawnFailEnv.spawnOk = false ∧
    supervisorRaises badCfg spawnFailEnv = true ∧
    finalState (taskTrace badCfg spawnFailEnv) = State.running ∧
    runRaises [("bad", { cfg := badCfg, env := spawnFailEnv })] 1 = true := by
  have h := claim_C6_amended badCfg spawnFailEnv rfl
  exact ⟨rfl, h.1, h.2.1, h.2.2.2 _ 1 "bad" (by decide) (by decide)⟩

/-- C2 is false on the code: the Oneshot `bad` exits 3, reaching Failed
without ever having been Ready — yet line 218 sets its latch
unconditionally, so its dependent `dep` is released past the dependency
wait (it does leave Pending). -/
theorem claim_C2_counterexample :
    finalState (taskTrace badCfg badEnv) = State.failed ∧
    Event.setState State.ready ∉ taskTrace badCfg badEnv ∧
    latchEverSet badCfg badEnv = true ∧
    released sysBadDep 2 "dep" = true := by
  decide

/-- C2 as amended: a dependency that reaches Failed *without its latch
ever being set* — as a Service whose readiness probe times out — blocks
its dependents forever; a failed Oneshot, by contrast, sets its latch on
exit, so its dependents are released.  First conjunct: a probe timeout
never sets the latch; second: a dependent of any task whose run never
sets its latch is never released. -/
theorem claim_C2_amended :
    (∀ (cfg : TaskCfg) (env : TaskEnv),
        probeGate cfg = true → env.probeSucceeds = false →
        latchEverSet cfg env = false) ∧
    ∀ (sys : List (String × SimTask)) (fuel : Nat) (n : String) (t : SimTask),
      alookup sys n = some t →
      ∀ (a : String) (ta : SimTask), a ∈ t.cfg.depends_on →
        alookup sys a = some ta → latchEverSet ta.cfg ta.env = false →
        released sys fuel n = false := by
  constructor
  · intro cfg env hg hp
    have hk : cfg.kind = Kind.service := by
      simp [probeGate] at hg
      exact hg.1
    have hko : ¬ cfg.kind = Kind.oneshot := by simp [hk]
    cases hs : env.spawnOk
    · simp [latchEverSet, taskTrace, hs, isSetLatch, startEvents]
    · cases he : env.exits <;>
        simp [latchEverSet, taskTrace, hs, he, isSetLatch, startEvents,
          readinessEvents, exitEvents, hg, hp, hko]
  · intro sys fuel n t hn a ta ha hta hlatch
    cases fuel with
    | zero => simp [released]
    | succ fuel =>
      simp only [released, hn]
      by_contra hb
      rw [Bool.not_eq_false, List.all_eq_true] at hb
      have := hb a ha
      rw [hta] at this
      simp [hlatch] at this

/-- Witness for C2 (amended): `web`, a Service whose probe times out,
never sets its latch, and its dependent `dep` is never released. -/
theorem claim_C2_witness :
    probeGate webCfg = true ∧ webTimeoutEnv.probeSucceeds = false ∧
    latchEverSet webCfg webTimeoutEnv = false ∧
    released sysWebDep 5 "dep" = false :=
  ⟨rfl, rfl, claim_C2_amended.1 webCfg webTimeoutEnv rfl rfl,
    claim_C2_amended.2 sysWebDep 5 "dep" { cfg := webDepCfg, env := okOneshotEnv }
      (by decide) "web" { cfg := webCfg, env := webTimeoutEnv } (by decide)
      (by decide) (claim_C2_amended.1 webCfg webTimeoutEnv rfl rfl)⟩

/-- C5's divergence, evaluated: the probe loop for the Service `web` is
bounded by the timeout handed to `asyncio.wait_for` at backend.py line
205, which is the module constant READY_TIMEOUT = 30 — not the task's
configured `ready_timeout = 1`, which the supervisor never reads.  The
behavioural halves of the claim do hold: a probe success makes the task
Ready, sets the latch and logs `ready`; a timeout makes it Failed, logs
`READY TIMEOUT`, and leaves the latch unset. -/
theorem claim_C5_code_bug :
    probeDeadline webCfg = 30 ∧ webCfg.ready_timeout = 1 ∧
    ¬ probeDeadline webCfg = webCfg.ready_timeout ∧
    latchEverSet webCfg webTimeoutEnv = false ∧
    finalState (taskTrace webCfg webTimeoutEnv) = State.failed ∧
    Event.log "[web] READY TIMEOUT" ∈ taskTrace webCfg webTimeoutEnv ∧
    latchEverSet webCfg webOkEnv = true ∧
    finalState (taskTrace webCfg webOkEnv) = State.ready ∧
    Event.log "[web] ready" ∈ taskTrace webCfg webOkEnv := by
  refine ⟨rfl, rfl, by decide, ?_⟩
  decide

/-- A list without latch events admits no split at a latch event. -/
theorem no_latch_no_split (T pre post : List Event)
    (h : T = pre ++ Event.setLatch :: post)
    (hc : T.countP isSetLatch = 0) : False := by
  subst h
  simp [List.countP_append, List.countP_cons, isSetLatch] at hc

/-- If a trace signals the latch at most once, a split at the latch event
is unique: the prefix is everything before the first latch event. -/
theorem countP_split_unique (T pre post : List Event)
    (hc : T.countP isSetLatch ≤ 1)
    (h : T = pre ++ Event.setLatch :: post) :
    pre = T.takeWhile (fun e => !isSetLatch e) := by
  induction pre generalizing T with
  | nil =>
    subst h
    simp [List.takeWhile_cons, isSetLatch]
  | cons e pre ih =>
    subst h
    rw [List.cons_append] at hc
    have hpos : 0 < (pre ++ Event.setLatch :: post).countP isSetLatch :=
      List.countP_pos_iff.mpr ⟨Event.setLatch, by simp, by simp [isSetLatch]⟩
    have he : isSetLatch e = false := by
      cases hb : isSetLatch e
      · rfl
      · exfalso
        rw [List.countP_cons_of_pos isSetLatch _ hb] at hc
        omega
    have hc' : (pre ++ Event.setLatch :: post).countP isSetLatch ≤ 1 := by
      rw [List.countP_cons_of_neg isSetLatch _ (by simp [he])] at hc
      exact hc
    have htl := ih (pre ++ Event.setLatch :: post) hc' rfl
    simp only [List.cons_append, List.takeWhile_cons, he, Bool.not_false,
      if_pos, List.cons.injEq]
    exact ⟨trivial, htl⟩

/-- C1 is false on the code: for the failing Oneshot `bad` (exit 3) the
latch is set by backend.py line 218 at a moment when the state is Failed,
not Ready. -/
theorem claim_C1_counterexample :
    ¬ ∀ (cfg : TaskCfg) (env : TaskEnv) (pre post : List Event),
        taskTrace cfg env = pre ++ Event.setLatch :: post →
        finalState pre = State.ready := by
  intro h
  have := h badCfg badEnv
    [Event.setState State.running, Event.setStartTime, Event.log "[bad] started",
     Event.setEndTime, Event.setState State.failed] [] (by decide)
  exact absurd this (by decide)

/-- C1 as amended: every supervisor run signals the latch at most once,
and at that moment the state is Ready — except for a Oneshot whose child
exited non-zero, where line 218 sets the latch with the state Failed. -/
theorem claim_C1_amended :
    ∀ (cfg : TaskCfg) (env : TaskEnv),
      latchCount (taskTrace cfg env) ≤ 1 ∧
      ∀ (pre post : List Event),
        taskTrace cfg env = pre ++ Event.setLatch :: post →
        finalState pre = State.ready ∨
          (cfg.kind = Kind.oneshot ∧ ¬ env.exitCode = 0 ∧
            finalState pre = State.failed) := by
  intro cfg env
  by_cases hs : env.spawnOk = true
  case neg =>
    have hs' : env.spawnOk = false := by
      revert hs
      cases env.spawnOk <;> simp
    have hc0 : (taskTrace cfg env).countP isSetLatch = 0 := by
      simp [taskTrace, hs', startEvents, List.countP_append, List.countP_cons,
        isSetLatch]
    exact ⟨by simp [latchCount, hc0],
      fun pre post h => (no_latch_no_split _ pre post h hc0).elim⟩
  case pos =>
    cases hk : cfg.kind
    · -- oneshot
      have hre : readinessEvents cfg env = [] := by
        simp [readinessEvents, probeGate, hk]
      cases hex : env.exits
      · have hc0 : (taskTrace cfg env).countP isSetLatch = 0 := by
          simp [taskTrace, hs, hex, hre, startEvents, List.countP_append,
            List.countP_cons, isSetLatch]
        exact ⟨by simp [latchCount, hc0],
          fun pre post h => (no_latch_no_split _ pre post h hc0).elim⟩
      · have htr : taskTrace cfg env =
            [Event.setState State.running, Event.setStartTime,
             Event.log ("[" ++ cfg.name ++ "] started"), Event.setEndTime,
             Event.setState
               (if env.exitCode = 0 then State.ready else State.failed),
             Event.setLatch] := by
          simp [taskTrace, hs, hex, hre, startEvents, exitEvents, hk]
        have hc1 : (taskTrace cfg env).countP isSetLatch ≤ 1 := by
          rw [htr]
          simp [List.countP_cons, isSetLatch]
        refine ⟨by simpa [latchCount] using hc1, ?_⟩
        intro pre post h
        have hpre := countP_split_unique _ pre post hc1 h
        rw [hpre, htr]
        by_cases hec : env.exitCode = 0
        · left
          simp [List.takeWhile_cons, isSetLatch, finalState, applyEvent, hec]
        · right
          refine ⟨by simp [hk], hec, ?_⟩
          simp [List.takeWhile_cons, isSetLatch, finalState, applyEvent, hec]
    · -- service
      have hko : ¬ cfg.kind = Kind.oneshot := by simp [hk]
      have htail : (if env.exits then exitEvents cfg env else []).countP
          isSetLatch = 0 := by
        cases env.exits
        · simp
        · simp only [if_pos rfl, exitEvents, if_neg hko]
          split <;> simp [List.countP_cons, isSetLatch]
      by_cases ht : truthyReadyCmd cfg = true
      · have hg : probeGate cfg = true := by simp [probeGate, hk, ht]
        cases hp : env.probeSucceeds
        · have hc0 : (taskTrace cfg env).countP isSetLatch = 0 := by
            simp [taskTrace, hs, readinessEvents, hg, hp, startEvents,
              List.countP_append, List.countP_cons, isSetLatch, htail]
          exact ⟨by simp [latchCount, hc0],
            fun pre post h => (no_latch_no_split _ pre post h hc0).elim⟩
        · have htr : taskTrace cfg env =
              Event.setState State.running :: Event.setStartTime ::
              Event.log ("[" ++ cfg.name ++ "] started") ::
              Event.setState State.ready :: Event.setLatch ::
              (Event.log ("[" ++ cfg.name ++ "] ready") ::
                (if env.exits then exitEvents cfg env else [])) := by
            simp [taskTrace, hs, readinessEvents, hg, hp, startEvents]
          have hc1 : (taskTrace cfg env).countP isSetLatch ≤ 1 := by
            rw [htr]
            simp [List.countP_cons, List.countP_append, isSetLatch, htail]
          refine ⟨by simpa [latchCount] using hc1, ?_⟩
          intro pre post h
          have hpre := countP_split_unique _ pre post hc1 h
          rw [hpre, htr]
          left
          simp [List.takeWhile_cons, isSetLatch, finalState, applyEvent]
      · have hg : probeGate cfg = false := by
          simp [probeGate, hk]
          revert ht
          cases truthyReadyCmd cfg <;> simp
        have htr : taskTrace cfg env =
            Event.setState State.running :: Event.setStartTime ::
            Event.log ("[" ++ cfg.name ++ "] started") ::
            Event.setState State.ready :: Event.setLatch ::
            (if env.exits then exitEvents cfg env else []) := by
          simp [taskTrace, hs, readinessEvents, hg, hk, startEvents]
        have hc1 : (taskTrace cfg env).countP isSetLatch ≤ 1 := by
          rw [htr]
          simp [List.countP_cons, isSetLatch, htail]
        refine ⟨by simpa [latchCount] using hc1, ?_⟩
        intro pre post h
        have hpre := countP_split_unique _ pre post hc1 h
        rw [hpre, htr]
        left
        simp [List.takeWhile_cons, isSetLatch, finalState, applyEvent]
    · -- daemon
      have hko : ¬ cfg.kind = Kind.oneshot := by simp [hk]
      have htail : (if env.exits then exitEvents cfg env else []).countP
          isSetLatch = 0 := by
        cases env.exits
        · simp
        · simp only [if_pos rfl, exitEvents, if_neg hko]
          split <;> simp [List.countP_cons, isSetLatch]
      have hg : probeGate cfg = false := by simp [probeGate, hk]
      have htr : taskTrace cfg env =
          Event.setState State.running :: Event.setStartTime ::
          Event.log ("[" ++ cfg.name ++ "] started") ::
          Event.setState State.ready :: Event.setLatch ::
          (if env.exits then exitEvents cfg env else []) := by
        simp [taskTrace, hs, readinessEvents, hg, hk, startEvents]
      have hc1 : (taskTrace cfg env).countP isSetLatch ≤ 1 := by
        rw [htr]
        simp [List.countP_cons, isSetLatch, htail]
      refine ⟨by simpa [latchCount] using hc1, ?_⟩
      intro pre post h
      have hpre := countP_split_unique _ pre post hc1 h
      rw [hpre, htr]
      left
      simp [List.takeWhile_cons, isSetLatch, finalState, applyEvent]

/-- Witness for C1 (amended) at the failing Oneshot `bad`: its single
latch signal happens with the state Failed. -/
theorem claim_C1_witness :
    latchCount (taskTrace badCfg badEnv) ≤ 1 ∧
    (finalState
        [Event.setState State.running, Event.setStartTime,
         Event.log "[bad] started", Event.setEndTime,
         Event.setState State.failed] = State.ready ∨
      (badCfg.kind = Kind.oneshot ∧ ¬ badEnv.exitCode = 0 ∧
        finalState
          [Event.setState State.running, Event.setStartTime,
           Event.log "[bad] started", Event.setEndTime,
           Event.setState State.failed] = State.failed)) :=
  ⟨(claim_C1_amended badCfg badEnv).1,
    (claim_C1_amended badCfg badEnv).2
      [Event.setState State.running, Event.setStartTime,
       Event.log "[bad] started", Event.setEndTime,
       Event.setState State.failed] [] (by decide)⟩


/-- Characterisation of `splitAux` on a cons cell: a CRLF pair is one
boundary, any other line-break character one boundary, anything else is
accumulated. -/
theorem splitAux_cons (c : Char) (cs acc : List Char) :
    splitAux (c :: cs) acc =
      if c = '\r' && cs.head? == some '\n' then acc.reverse :: splitAux cs.tail []
      else if isLineBreak c then acc.reverse :: splitAux cs []
      else splitAux cs (c :: acc) := by
  cases cs with
  | nil =>
    have hb : ((([] : List Char).head? == some '\n') : Bool) = false := by decide
    simp only [splitAux, hb, Bool.and_false, Bool.false_eq_true, if_false]
    split <;> simp [splitAux]
  | cons c2 cs' =>
    simp only [splitAux, List.head?_cons, List.tail_cons]
    by_cases h2 : c2 = '\n'
    · subst h2
      have : ((some ('\n' : Char) == some '\n') : Bool) = true := by decide
      rw [this]
      have : ((('\n' : Char) = '\n') : Bool) = true := by decide
      rw [this]
    · have hb1 : ((c2 = '\n') : Bool) = false := by
        simp [h2]
      have hb2 : ((some c2 == some ('\n' : Char)) : Bool) = false := by
        simp [h2]
      rw [hb1, hb2]

/-- Splitting distributes over an append whose left part ends in a
newline (the boundary cannot then merge with the right part). -/
theorem splitAux_append :
    ∀ (n : Nat) (a b acc : List Char), a.length ≤ n → a.getLast? = some '\n' →
      splitAux (a ++ b) acc = splitAux a acc ++ splitAux b [] := by
  intro n
  induction n with
  | zero =>
    intro a b acc hlen hlast
    cases a with
    | nil => simp at hlast
    | cons c a' => simp at hlen
  | succ n ih =>
    intro a b acc hlen hlast
    cases a with
    | nil => simp at hlast
    | cons c a' =>
      cases a' with
      | nil =>
        have hc : c = '\n' := by simpa using hlast
        subst hc
        rw [List.cons_append, splitAux_cons, splitAux_cons]
        simp [splitAux, isLineBreak]
      | cons c2 a'' =>
        have hlast' : (c2 :: a'').getLast? = some '\n' := by
          rw [List.getLast?_cons_cons] at hlast
          exact hlast
        have hlen' : (c2 :: a'').length ≤ n := by
          simp only [List.length_cons] at hlen ⊢
          omega
        by_cases hc : c = '\r'
        · by_cases hc2 : c2 = '\n'
          · subst hc
            subst hc2
            rw [List.cons_append, splitAux_cons, splitAux_cons]
            simp only [List.cons_append, List.head?_cons, List.tail_cons]
            rw [if_pos (by decide), if_pos (by decide)]
            cases a'' with
            | nil => simp [splitAux]
            | cons d a3 =>
              have h1 : (d :: a3).getLast? = some '\n' := by
                rw [List.getLast?_cons_cons] at hlast'
                exact hlast'
              have h2 : (d :: a3).length ≤ n := by
                simp only [List.length_cons] at hlen ⊢
                omega
              have hih := ih (d :: a3) b [] h2 h1
              rw [hih]
              simp
          · subst hc
            rw [List.cons_append, splitAux_cons, splitAux_cons]
            simp only [List.cons_append, List.head?_cons]
            have hbeq : ((some c2 == some ('\n' : Char)) : Bool) = false := by
              simp [hc2]
            simp only [hbeq, Bool.and_false, Bool.false_eq_true, if_false]
            have hlb : isLineBreak '\r' = true := by decide
            simp only [hlb, if_true]
            have hih := ih (c2 :: a'') b [] hlen' hlast'
            rw [List.cons_append] at hih
            rw [hih]
            simp
        · rw [List.cons_append, splitAux_cons, splitAux_cons]
          simp only [List.cons_append, List.head?_cons]
          have hbeq : ((decide (c = '\r') && (some c2 == some ('\n' : Char))) :
              Bool) = false := by
            simp [hc]
          simp only [hbeq, Bool.false_eq_true, if_false]
          by_cases hlb : isLineBreak c = true
          · simp only [hlb, if_true]
            have hih := ih (c2 :: a'') b [] hlen' hlast'
            rw [List.cons_append] at hih
            rw [hih]
            simp
          · have hlb' : isLineBreak c = false := by
              revert hlb
              cases isLineBreak c <;> simp
            simp only [hlb', Bool.false_eq_true, if_false]
            have hih := ih (c2 :: a'') b (c :: acc) hlen' hlast'
            rw [List.cons_append] at hih
            exact hih

/-- Splitting the concatenation of newline-terminated texts equals
concatenating the splits. -/
theorem pySplitlines_flatten (texts : List (List Char))
    (h : ∀ t ∈ texts, t.getLast? = some '\n') :
    pySplitlines texts.flatten = (texts.map pySplitlines).flatten := by
  induction texts with
  | nil => simp [pySplitlines, splitAux]
  | cons t ts ih =>
    have ih' := ih (fun u hu => h u (by simp [hu]))
    simp only [pySplitlines] at ih' ⊢
    simp only [List.flatten_cons, List.map_cons]
    rw [splitAux_append t.length t ts.flatten [] le_rfl (h t (by simp)), ih']
    simp [pySplitlines]

/-- C7 is false on the code: each chunk is decoded and split on its own
(backend.py lines 197-198), so a line spanning two reads is emitted as
two records, and the per-task record subsequence differs from the whole
byte stream split by line terminators: chunks «ab» and «c\n» yield the
records «ab» and «c», but the stream «abc\n» splits to the single line
«abc». -/
theorem claim_C7_counterexample :
    ¬ ∀ (name : String) (chunks : List (List Nat)),
        (∀ c ∈ chunks, c.length ≤ 1024) →
        pumpRecords name chunks = wholeStreamRecords name chunks.flatten := by
  intro h
  have := h "t" [[97, 98], [99, 10]] (by decide)
  exact absurd this (by decide)

/-- C7 as amended: the pump decodes each chunk (at most 1024 bytes per
read) with UTF-8 replacement and splits it independently, emitting one
`[<name>] │ <line>` record per line; the per-task records equal the whole
byte stream split by line terminators whenever the chunk boundaries are
clean — no multi-byte sequence split across reads and every chunk ending
with a newline — but a line or multi-byte sequence spanning reads is
emitted as separate (or replacement-mangled) records. -/
theorem claim_C7_amended :
    ∀ (name : String) (chunks : List (List Nat)),
      (∀ c ∈ chunks, c.length ≤ 1024) →
      decodeReplace chunks.flatten = (chunks.map decodeReplace).flatten →
      (∀ c ∈ chunks, (decodeReplace c).getLast? = some '\n') →
      pumpRecords name chunks = wholeStreamRecords name chunks.flatten := by
  intro name chunks hlen hdec hnl
  unfold pumpRecords wholeStreamRecords
  rw [hdec]
  rw [pySplitlines_flatten (chunks.map decodeReplace)
    (by
      intro t ht
      rw [List.mem_map] at ht
      obtain ⟨c, hc, rfl⟩ := ht
      exact hnl c hc)]
  rw [List.map_flatten, List.map_map, List.map_map]
  rfl

/-- Witness for C7 (amended) at two newline-terminated ASCII chunks. -/
theorem claim_C7_witness :
    (∀ c ∈ [[97, 10], [98, 10]], List.length c ≤ 1024) ∧
    decodeReplace (List.flatten [[97, 10], [98, 10]]) =
      (List.map decodeReplace [[97, 10], [98, 10]]).flatten ∧
    pumpRecords "t" [[97, 10], [98, 10]] =
      wholeStreamRecords "t" (List.flatten [[97, 10], [98, 10]]) :=
  ⟨by decide, by decide,
    claim_C7_amended "t" [[97, 10], [98, 10]] (by decide) (by decide) (by decide)⟩

/-- With an empty successor map the while loop just drains the queue in
order. -/
theorem topoLoop_no_child :
    ∀ (q : List String) (indeg : List (String × Int)) (acc : List String),
      topoLoop [] indeg q acc = acc.reverse ++ q := by
  intro q
  induction q with
  | nil =>
    intro indeg acc
    rw [topoLoop]
    simp
  | cons n q' ihq =>
    intro indeg acc
    rw [topoLoop]
    simp only [alookup, Option.getD_none, processChildren, List.append_nil]
    rw [ihq]
    simp

/-- C9: the planner is deterministic — it is a pure function of the
insertion-ordered mapping (Python dicts iterate in insertion order), and
ties are broken by that insertion order: with no dependencies at all the
output is exactly the key order of the mapping. -/
theorem claim_C9 :
    (∀ c1 c2 : List (String × TaskCfg), c1 = c2 → topo_order c1 = topo_order c2) ∧
    ∀ cfgs : List (String × TaskCfg), (∀ p ∈ cfgs, p.2.depends_on = []) →
      topo_order cfgs = Except.ok (cfgs.map Prod.fst) := by
  constructor
  · intro c1 c2 h
    rw [h]
  · intro cfgs h
    have hchild : initChild cfgs = [] := by
      have hgen : ∀ (l : List (String × TaskCfg)),
          (∀ p ∈ l, p.2.depends_on = []) → ∀ m,
          l.foldl (fun m p => p.2.depends_on.foldl (fun m' d => childAdd m' d p.1) m) m
            = m := by
        intro l
        induction l with
        | nil => intro _ m; rfl
        | cons p t ihl =>
          intro hl m
          simp only [List.foldl_cons]
          rw [hl p (by simp), List.foldl_nil]
          exact ihl (fun q hq => hl q (by simp [hq])) m
      exact hgen cfgs h []
    have hindeg : initIndeg cfgs = cfgs.map (fun p => (p.1, (0 : Int))) := by
      unfold initIndeg
      exact List.map_congr_left (fun p hp => by rw [h p hp]; rfl)
    have hq : (initIndeg cfgs).filterMap
        (fun p => if p.2 = 0 then some p.1 else none) = cfgs.map Prod.fst := by
      rw [hindeg, List.filterMap_map]
      have hfm : ∀ (l : List (String × TaskCfg)),
          l.filterMap ((fun p : String × Int => if p.2 = 0 then some p.1 else none)
            ∘ (fun p : String × TaskCfg => (p.1, (0 : Int)))) = l.map Prod.fst := by
        intro l
        induction l with
        | nil => rfl
        | cons p t ihl => simp [List.filterMap_cons, ihl]
      exact hfm cfgs
    unfold topo_order kahnOrder
    rw [hchild, hq, topoLoop_no_child]
    simp

/-- Witness for C9: a single dependency-free task, planned identically
across runs and in insertion order. -/
theorem claim_C9_witness :
    topo_order [("a", planACfg)] = topo_order [("a", planACfg)] ∧
    topo_order [("a", planACfg)] = Except.ok ["a"] :=
  ⟨claim_C9.1 [("a", planACfg)] [("a", planACfg)] rfl, by
    have := claim_C9.2 [("a", planACfg)] (by decide)
    simpa using this⟩

/-- A fold in the Except monad is not Ok when some element always makes
the step fail. -/
theorem foldlM_err {σ α : Type} (f : σ → α → Except String σ) (a : α)
    (herr : ∀ s, (f s a).isOk = false) :
    ∀ (l : List α), a ∈ l → ∀ s, (List.foldlM f s l).isOk = false := by
  intro l
  induction l with
  | nil => intro ha; simp at ha
  | cons b t ih =>
    intro ha s
    rw [List.foldlM_cons]
    cases hfb : f s b with
    | error e => rfl
    | ok s' =>
      rcases List.mem_cons.mp ha with h1 | h2
      · subst h1
        have := herr s
        rw [hfb] at this
        simp [Except.isOk, Except.toBool] at this
      · show (List.foldlM f s' t).isOk = false
        exact ih h2 s'

/-- Binding after a failed Except keeps it failed. -/
theorem bind_isOk_false {σ τ : Type} (x : Except String σ)
    (g : σ → Except String τ) (h : x.isOk = false) : (x >>= g).isOk = false := by
  cases x with
  | error e => rfl
  | ok s => simp [Except.isOk, Except.toBool] at h

/-- Constructing the backend loses nothing: projecting the runtime map
back to configurations returns the input mapping. -/
theorem mkBackend_cfgs (cfgs : List (String × TaskCfg)) :
    (mkBackend cfgs).rt.map (fun p => (p.1, p.2.cfg)) = cfgs := by
  unfold mkBackend
  rw [List.map_map]
  have : ((fun p : String × TaskRt => (p.1, p.2.cfg)) ∘
      (fun p : Nat × (String × TaskCfg) =>
        (p.2.1,
          ({ cfg := p.2.2, state := State.pending, ready := false,
             colour := TAB10.getD (p.1 % TAB10.length) "", start_time := 0,
             end_time := 0, pty_primary := -1, pty_secondary := -1 } : TaskRt)))) =
      Prod.snd := by
    funext p
    rfl
  rw [this]
  exact List.enum_map_snd cfgs

/-- C8 is false on the code: load_config performs no cycle, dependency or
duplicate-name checks, so the cyclic configuration {a→b, b→a} loads
fine and the orchestrator is constructed over it. -/
theorem claim_C8_counterexample :
    (load_config cyclicRaw).isOk = true ∧
    ((load_config cyclicRaw).toOption.map
      (fun p => (mkBackend p.1).rt.map Prod.fst)) = some ["a", "b"] := by
  decide

/- ───────── lemmas on the planner's primitive operations ───────── -/

/-- Lookup misses exactly the keys not in the map. -/
theorem alookup_eq_none {α : Type} (m : List (String × α)) (k : String) :
    alookup m k = none ↔ k ∉ m.map Prod.fst := by
  induction m with
  | nil => simp [alookup]
  | cons p rest ih =>
    obtain ⟨k', v⟩ := p
    by_cases h : k' = k
    · subst h
      simp [alookup]
    · simp [alookup, h, ih, Ne.symm h]

/-- With distinct keys, any entry of the list is what lookup returns. -/
theorem alookup_of_mem_nodup {α : Type} (m : List (String × α)) (k : String)
    (v : α) (hnd : (m.map Prod.fst).Nodup) (hm : (k, v) ∈ m) :
    alookup m k = some v := by
  induction m with
  | nil => simp at hm
  | cons p rest ih =>
    obtain ⟨k', v'⟩ := p
    rw [List.map_cons, List.nodup_cons] at hnd
    rcases List.mem_cons.mp hm with h1 | h2
    · cases h1
      simp [alookup]
    · have hk : k' ≠ k := by
        intro he
        subst he
        exact hnd.1 (List.mem_map.mpr ⟨(k', v), h2, rfl⟩)
      simp only [alookup, if_neg hk]
      exact ih hnd.2 h2

/-- Lookup in the in-degree map built at line 132. -/
theorem alookup_initIndeg (cfgs : List (String × TaskCfg)) (n : String) :
    alookup (initIndeg cfgs) n =
      (alookup cfgs n).map (fun c => (c.depends_on.length : Int)) := by
  induction cfgs with
  | nil => simp [initIndeg, alookup]
  | cons p rest ih =>
    obtain ⟨k, c⟩ := p
    by_cases h : k = n
    · subst h
      simp [initIndeg, alookup]
    · simpa [initIndeg, alookup, h] using ih

/-- Decrement keeps the key list. -/
theorem decr_map_fst (ind : List (String × Int)) (k : String) :
    (decr ind k).map Prod.fst = ind.map Prod.fst := by
  induction ind with
  | nil => rfl
  | cons p rest ih =>
    obtain ⟨n, v⟩ := p
    by_cases h : n = k
    · subst h
      simp [decr]
    · simp [decr, h, ih]

/-- Lookup after decrementing the same key. -/
theorem alookup_decr_self (ind : List (String × Int)) (k : String) :
    alookup (decr ind k) k = (alookup ind k).map (fun v => v - 1) := by
  induction ind with
  | nil => simp [decr, alookup]
  | cons p rest ih =>
    obtain ⟨n, v⟩ := p
    by_cases h : n = k
    · subst h
      simp [decr, alookup]
    · simpa [decr, alookup, h] using ih

/-- Lookup of a different key is unchanged by a decrement. -/
theorem alookup_decr_ne (ind : List (String × Int)) (k p : String)
    (h : p ≠ k) : alookup (decr ind k) p = alookup ind p := by
  induction ind with
  | nil => simp [decr]
  | cons q rest ih =>
    obtain ⟨n, v⟩ := q
    by_cases hn : n = k
    · subst hn
      simp [decr, alookup, Ne.symm h]
    · by_cases hnp : n = p
      · subst hnp
        simp [decr, alookup, hn]
      · simpa [decr, alookup, hn, hnp] using ih

/-- The inner loop keeps the key list. -/
theorem processChildren_map_fst (chs : List String) :
    ∀ (ind : List (String × Int)),
      (processChildren ind chs).1.map Prod.fst = ind.map Prod.fst := by
  induction chs with
  | nil => intro ind; rfl
  | cons ch rest ih =>
    intro ind
    simp only [processChildren]
    rw [ih (decr ind ch), decr_map_fst]

/-- The inner loop decrements each key once per occurrence in the child
list. -/
theorem alookup_processChildren (chs : List String) :
    ∀ (ind : List (String × Int)) (p : String),
      alookup (processChildren ind chs).1 p =
        (alookup ind p).map (fun v => v - (chs.count p : Int)) := by
  induction chs with
  | nil =>
    intro ind p
    simp [processChildren]
  | cons ch rest ih =>
    intro ind p
    simp only [processChildren]
    rw [ih (decr ind ch) p]
    by_cases h : p = ch
    · subst h
      rw [alookup_decr_self]
      cases alookup ind p with
      | none => simp
      | some v =>
        simp [List.count_cons]
        ring
    · rw [alookup_decr_ne _ _ _ h]
      cases alookup ind p with
      | none => simp
      | some v =>
        have hbe : (ch == p) = false := beq_eq_false_iff_ne.mpr (Ne.symm h)
        simp [List.count_cons, hbe]

/-- How often a name is enqueued by the inner loop: exactly once when its
current in-degree is positive and the decrements bring it to exactly 0. -/
theorem count_processChildren (chs : List String) :
    ∀ (ind : List (String × Int)) (p : String),
      ((processChildren ind chs).2.count p : Int) =
        (match alookup ind p with
         | some v => if 1 ≤ v ∧ v ≤ (chs.count p : Int) then 1 else 0
         | none => 0) := by
  induction chs with
  | nil =>
    intro ind p
    cases h : alookup ind p with
    | none => simp [processChildren]
    | some v =>
      simp only [processChildren, List.count_nil, Nat.cast_zero]
      rw [if_neg (by omega)]
  | cons ch rest ih =>
    intro ind p
    simp only [processChildren, List.count_append]
    push_cast
    rw [ih (decr ind ch) p]
    by_cases h : p = ch
    · subst h
      cases hv : alookup ind p with
      | none =>
        have hd : alookup (decr ind p) p = none := by
          rw [alookup_decr_self, hv]
          rfl
        simp [hd, hv]
      | some v =>
        have hd : alookup (decr ind p) p = some (v - 1) := by
          rw [alookup_decr_self, hv]
          rfl
        simp only [hd, hv]
        rw [List.count_cons]
        have hpp : (p == p) = true := by simp
        simp only [hpp, if_true, Option.some.injEq]
        by_cases h1 : v - 1 = 0
        · rw [if_pos h1]
          have hc1 : ((List.count p [p] : Nat) : Int) = 1 := by simp
          rw [hc1]
          rw [if_neg (by omega), if_pos (by push_cast; omega)]
          omega
        · rw [if_neg h1]
          simp only [List.count_nil, Nat.cast_zero]
          by_cases h2 : 1 ≤ v - 1 ∧ v - 1 ≤ (rest.count p : Int)
          · rw [if_pos h2, if_pos (by push_cast; omega)]
            omega
          · rw [if_neg h2, if_neg (by push_cast; omega)]
            omega
    · have hd : alookup (decr ind ch) p = alookup ind p :=
        alookup_decr_ne _ _ _ h
      have hc0 : ((if alookup (decr ind ch) ch = some 0 then [ch] else []).count p
          : Int) = 0 := by
        have hbe : (ch == p) = false := beq_eq_false_iff_ne.mpr (Ne.symm h)
        split <;> simp [List.count_cons, hbe]
      rw [hc0, hd]
      rw [List.count_cons]
      have hbe : (ch == p) = false := beq_eq_false_iff_ne.mpr (Ne.symm h)
      simp only [hbe, Bool.false_eq_true, if_false]
      cases alookup ind p <;> simp

/-- Effect of one `setdefault(..).append(..)` on a successor list. -/
theorem alookup_childAdd_getD (m : List (String × List String))
    (d' nm d : String) :
    (alookup (childAdd m d' nm) d).getD [] =
      (alookup m d).getD [] ++ (if d = d' then [nm] else []) := by
  induction m with
  | nil =>
    by_cases h : d = d'
    · subst h
      simp [childAdd, alookup]
    · simp [childAdd, alookup, Ne.symm h, h]
  | cons p rest ih =>
    obtain ⟨k, v⟩ := p
    by_cases hk : k = d'
    · subst hk
      by_cases hd : k = d
      · subst hd
        simp [childAdd, alookup]
      · simp [childAdd, alookup, hd, Ne.symm hd]
    · by_cases hd : k = d
      · subst hd
        simp [childAdd, alookup, hk, Ne.symm hk]
      · simpa [childAdd, alookup, hk, hd] using ih

/-- The successor map built at lines 133-136: entry `d` lists, in
configuration order, each task's name once per occurrence of `d` in its
dependency list. -/
theorem alookup_initChild (cfgs : List (String × TaskCfg)) (d : String) :
    (alookup (initChild cfgs) d).getD [] =
      (cfgs.map (fun p => List.replicate (p.2.depends_on.count d) p.1)).flatten := by
  have hinner : ∀ (deps : List String) (nm : String)
      (m : List (String × List String)),
      (alookup (deps.foldl (fun m' dd => childAdd m' dd nm) m) d).getD [] =
        (alookup m d).getD [] ++ List.replicate (deps.count d) nm := by
    intro deps nm
    induction deps with
    | nil => intro m; simp
    | cons dd rest ihd =>
      intro m
      simp only [List.foldl_cons]
      rw [ihd (childAdd m dd nm), alookup_childAdd_getD, List.count_cons]
      by_cases h : d = dd
      · subst h
        simp only [if_pos rfl]
        have hb : (d == d) = true := beq_iff_eq.mpr rfl
        simp only [hb, if_true]
        rw [List.append_assoc]
        have h2 : rest.count d + 1 = 1 + rest.count d := by omega
        rw [h2, List.replicate_add]
        rfl
      · have hb : (dd == d) = false := beq_eq_false_iff_ne.mpr (fun e => h e.symm)
        simp [h, hb]
  have houter : ∀ (l : List (String × TaskCfg)) (m : List (String × List String)),
      (alookup (l.foldl
        (fun m p => p.2.depends_on.foldl (fun m' dd => childAdd m' dd p.1) m) m)
          d).getD [] =
        (alookup m d).getD [] ++
          (l.map (fun p => List.replicate (p.2.depends_on.count d) p.1)).flatten := by
    intro l
    induction l with
    | nil => intro m; simp
    | cons p rest ihl =>
      intro m
      simp only [List.foldl_cons]
      rw [ihl, hinner p.2.depends_on p.1 m]
      simp [List.append_assoc]
  unfold initChild
  rw [houter cfgs []]
  simp [alookup]

/-- With distinct task names, the successor list of `n` mentions `p`
exactly as often as `p` depends on `n`. -/
theorem count_childList (cfgs : List (String × TaskCfg))
    (hnd : (cfgs.map Prod.fst).Nodup) (n p : String) :
    ((alookup (initChild cfgs) n).getD []).count p =
      (if p ∈ cfgs.map Prod.fst then (depsOf cfgs p).count n else 0) := by
  rw [alookup_initChild]
  induction cfgs with
  | nil => simp
  | cons q rest ih =>
    rw [List.map_cons] at hnd
    have hnd' := List.nodup_cons.mp hnd
    rw [List.map_cons, List.flatten_cons, List.count_append]
    by_cases hq : q.1 = p
    · have hrest0 : ((rest.map
          (fun p => List.replicate (p.2.depends_on.count n) p.1)).flatten).count p
          = 0 := by
        rw [ih hnd'.2]
        rw [if_neg (by rw [← hq]; exact hnd'.1)]
      rw [hrest0]
      rw [List.count_replicate]
      have hb : (q.1 == p) = true := beq_iff_eq.mpr hq
      rw [if_pos hb]
      rw [if_pos (by rw [List.map_cons]; exact List.mem_cons.mpr (Or.inl hq.symm))]
      have hdeps : depsOf (q :: rest) p = q.2.depends_on := by
        obtain ⟨k, c⟩ := q
        simp only at hq
        subst hq
        simp [depsOf, alookup]
      rw [hdeps]
      omega
    · rw [List.count_replicate]
      have hb : (q.1 == p) = false := beq_eq_false_iff_ne.mpr hq
      rw [if_neg (by simp [hb])]
      rw [ih hnd'.2]
      have hdeps : depsOf (q :: rest) p = depsOf rest p := by
        obtain ⟨k, c⟩ := q
        simp only at hq
        simp [depsOf, alookup, hq]
      have hmem : (p ∈ (q :: rest).map Prod.fst) ↔ (p ∈ rest.map Prod.fst) := by
        rw [List.map_cons, List.mem_cons]
        constructor
        · rintro (h1 | h2)
          · exact absurd h1.symm hq
          · exact h2
        · exact Or.inr
      rw [hdeps]
      by_cases hp : p ∈ rest.map Prod.fst
      · rw [if_pos hp, if_pos (hmem.mpr hp)]
        omega
      · rw [if_neg hp, if_neg (fun h => hp (hmem.mp h))]

/-- Removing a fresh name from the «not yet output» set: the pending
count splits into the new pending count plus the occurrences of that
name. -/
theorem countP_not_mem_cons (l : List String) (n : String) (order : List String)
    (h : n ∉ order) :
    l.countP (fun d => decide (d ∉ order)) =
      l.countP (fun d => decide (d ∉ n :: order)) + l.count n := by
  induction l with
  | nil => simp
  | cons d rest ih =>
    rw [List.countP_cons, List.countP_cons, List.count_cons]
    by_cases hd : d = n
    · subst hd
      have h1 : (decide (d ∉ order)) = true := by simp [h]
      have h2 : (decide (d ∉ d :: order)) = false := by simp
      have h3 : (d == d) = true := beq_iff_eq.mpr rfl
      rw [h1, h2, h3]
      simp only [if_true, Bool.false_eq_true, if_false]
      omega
    · have h2 : (decide (d ∉ n :: order)) = decide (d ∉ order) := by
        simp [List.mem_cons, hd]
      have h3 : (d == n) = false := beq_eq_false_iff_ne.mpr hd
      rw [h2, h3]
      simp only [Bool.false_eq_true, if_false]
      omega

/-- `pendingDeg` after outputting a fresh task `n`. -/
theorem pendingDeg_cons (cfgs : List (String × TaskCfg)) (order : List String)
    (n p : String) (h : n ∉ order) :
    pendingDeg cfgs order p =
      pendingDeg cfgs (n :: order) p + (depsOf cfgs p).count n := by
  unfold pendingDeg
  rw [← List.countP_eq_length_filter, ← List.countP_eq_length_filter]
  exact countP_not_mem_cons _ _ _ h

/-- `count_processChildren` when the key is present. -/
theorem count_processChildren_some (chs : List String)
    (ind : List (String × Int)) (p : String) (v : Int)
    (h : alookup ind p = some v) :
    ((processChildren ind chs).2.count p : Int) =
      if 1 ≤ v ∧ v ≤ (chs.count p : Int) then 1 else 0 := by
  rw [count_processChildren, h]

/-- `count_processChildren` when the key is absent. -/
theorem count_processChildren_none (chs : List String)
    (ind : List (String × Int)) (p : String)
    (h : alookup ind p = none) :
    ((processChildren ind chs).2.count p : Int) = 0 := by
  rw [count_processChildren, h]

/-- One iteration of the while loop of `topo_order` preserves the
invariant. -/
theorem kahnStep (cfgs : List (String × TaskCfg))
    (hnd : (cfgs.map Prod.fst).Nodup)
    (indeg : List (String × Int)) (n : String) (q' order : List String)
    (inv : KahnInv cfgs indeg (n :: q') order) :
    KahnInv cfgs
      (processChildren indeg ((alookup (initChild cfgs) n).getD [])).1
      (q' ++ (processChildren indeg ((alookup (initChild cfgs) n).getD [])).2)
      (n :: order) := by
  have hnq : n ∈ n :: q' := List.mem_cons_self n q'
  have hnkey : n ∈ cfgs.map Prod.fst := inv.q_sub n hnq
  have hnorder : n ∉ order := inv.q_not_order n hnq
  have hn0 : pendingDeg cfgs order n = 0 := ((inv.q_iff n hnkey).mp hnq).2
  have hqc := List.nodup_cons.mp inv.q_nodup
  have hchs : ∀ p, ((alookup (initChild cfgs) n).getD []).count p =
      (if p ∈ cfgs.map Prod.fst then (depsOf cfgs p).count n else 0) :=
    fun p => count_childList cfgs hnd n p
  have hpdn : ∀ p, pendingDeg cfgs order p =
      pendingDeg cfgs (n :: order) p + (depsOf cfgs p).count n :=
    fun p => pendingDeg_cons cfgs order n p hnorder
  have hmemQ : ∀ p,
      p ∈ (processChildren indeg ((alookup (initChild cfgs) n).getD [])).2 ↔
      (p ∈ cfgs.map Prod.fst ∧ 1 ≤ pendingDeg cfgs order p ∧
        pendingDeg cfgs order p ≤ (depsOf cfgs p).count n) := by
    intro p
    constructor
    · intro hpm
      have hpos : 0 < ((processChildren indeg
          ((alookup (initChild cfgs) n).getD [])).2.count p) :=
        List.count_pos_iff.mpr hpm
      by_cases hp : p ∈ cfgs.map Prod.fst
      · have hcnt := count_processChildren_some
          ((alookup (initChild cfgs) n).getD []) indeg p _ (inv.deg p hp)
        rw [hchs p, if_pos hp] at hcnt
        by_cases hcond : 1 ≤ ((pendingDeg cfgs order p : Nat) : Int) ∧
            ((pendingDeg cfgs order p : Nat) : Int) ≤
              (((depsOf cfgs p).count n : Nat) : Int)
        · exact ⟨hp, by exact_mod_cast hcond.1, by exact_mod_cast hcond.2⟩
        · rw [if_neg hcond] at hcnt
          omega
      · have hnone : alookup indeg p = none :=
          (alookup_eq_none indeg p).mpr (by rw [inv.keys_eq]; exact hp)
        have hcnt := count_processChildren_none
          ((alookup (initChild cfgs) n).getD []) indeg p hnone
        omega
    · rintro ⟨hp, h1, h2⟩
      have hcnt := count_processChildren_some
        ((alookup (initChild cfgs) n).getD []) indeg p _ (inv.deg p hp)
      rw [hchs p, if_pos hp] at hcnt
      rw [if_pos ⟨by exact_mod_cast h1, by exact_mod_cast h2⟩] at hcnt
      have : 0 < ((processChildren indeg
          ((alookup (initChild cfgs) n).getD [])).2.count p) := by omega
      exact List.count_pos_iff.mp this
  have hqno : ∀ p ∈ q' ++ (processChildren indeg
      ((alookup (initChild cfgs) n).getD [])).2, p ∉ n :: order := by
    intro p hp hmem
    rcases List.mem_append.mp hp with hq' | hnew
    · rcases List.mem_cons.mp hmem with rfl | hpo
      · exact hqc.1 hq'
      · exact inv.q_not_order p (List.mem_cons_of_mem _ hq') hpo
    · obtain ⟨hpk, h1, h2⟩ := (hmemQ p).mp hnew
      rcases List.mem_cons.mp hmem with rfl | hpo
      · omega
      · have := inv.order_deg p hpo
        omega
  refine ⟨?_, ?_, ?_, ?_, ?_, ?_, hqno, ?_, ?_, ?_⟩
  · rw [processChildren_map_fst]
    exact inv.keys_eq
  · intro p hp
    rw [alookup_processChildren, inv.deg p hp, hchs p, if_pos hp]
    have hpc := hpdn p
    simp only [Option.map_some']
    rw [Option.some.injEq]
    omega
  · exact List.nodup_cons.mpr ⟨hnorder, inv.order_nodup⟩
  · intro p hp
    rcases List.mem_cons.mp hp with rfl | h
    · exact hnkey
    · exact inv.order_sub p h
  · have hnewNodup : (processChildren indeg
        ((alookup (initChild cfgs) n).getD [])).2.Nodup := by
      rw [List.nodup_iff_count_le_one]
      intro a
      cases ha : alookup indeg a with
      | none =>
        have := count_processChildren_none
          ((alookup (initChild cfgs) n).getD []) indeg a ha
        omega
      | some v =>
        have hcnt := count_processChildren_some
          ((alookup (initChild cfgs) n).getD []) indeg a v ha
        by_cases hc : 1 ≤ v ∧ v ≤
            ((((alookup (initChild cfgs) n).getD []).count a : Nat) : Int)
        · rw [if_pos hc] at hcnt
          omega
        · rw [if_neg hc] at hcnt
          omega
    have hdisj : q'.Disjoint (processChildren indeg
        ((alookup (initChild cfgs) n).getD [])).2 := by
      intro a ha hanew
      obtain ⟨hpk, h1, h2⟩ := (hmemQ a).mp hanew
      have haq : a ∈ n :: q' := List.mem_cons_of_mem _ ha
      have h0 : pendingDeg cfgs order a = 0 :=
        ((inv.q_iff a (inv.q_sub a haq)).mp haq).2
      omega
    exact hqc.2.append hnewNodup hdisj
  · intro p hp
    rcases List.mem_append.mp hp with hq' | hnew
    · exact inv.q_sub p (List.mem_cons_of_mem _ hq')
    · exact ((hmemQ p).mp hnew).1
  · intro p hp
    constructor
    · intro hmem
      refine ⟨hqno p hmem, ?_⟩
      rcases List.mem_append.mp hmem with hq' | hnew
      · have hpq : p ∈ n :: q' := List.mem_cons_of_mem _ hq'
        have h0 := ((inv.q_iff p hp).mp hpq).2
        have := hpdn p
        omega
      · obtain ⟨hpk, h1, h2⟩ := (hmemQ p).mp hnew
        have := hpdn p
        omega
    · rintro ⟨hpno, hp0new⟩
      have hne : p ≠ n := fun e => hpno (e ▸ List.mem_cons_self n order)
      have hpo : p ∉ order := fun h => hpno (List.mem_cons_of_mem _ h)
      have heq := hpdn p
      by_cases hc : (depsOf cfgs p).count n = 0
      · have hp0 : pendingDeg cfgs order p = 0 := by omega
        have hmem : p ∈ n :: q' := (inv.q_iff p hp).mpr ⟨hpo, hp0⟩
        rcases List.mem_cons.mp hmem with rfl | hq'
        · exact absurd rfl hne
        · exact List.mem_append.mpr (Or.inl hq')
      · exact List.mem_append.mpr
          (Or.inr ((hmemQ p).mpr ⟨hp, by omega, by omega⟩))
  · intro p hp
    rcases List.mem_cons.mp hp with rfl | hpo
    · have := hpdn p
      omega
    · have h0 := inv.order_deg p hpo
      have := hpdn p
      omega
  · intro pre m post hsplit d hd
    cases pre with
    | nil =>
      rw [List.nil_append] at hsplit
      injection hsplit with e1 e2
      subst e1
      by_contra hdo
      rw [← e2] at hdo
      have hpos : 0 < pendingDeg cfgs order n := by
        unfold pendingDeg
        rw [← List.countP_eq_length_filter]
        exact List.countP_pos_iff.mpr ⟨d, hd, by simp [hdo]⟩
      omega
    | cons x pre' =>
      rw [List.cons_append] at hsplit
      injection hsplit with e1 e2
      exact inv.order_sorted pre' m post e2 d hd

/-- Each inner-loop pass pays for every name it enqueues out of the
positive in-degree mass. -/
theorem processChildren_measure (chs : List String) :
    ∀ (ind : List (String × Int)),
      sumPos (processChildren ind chs).1 + (processChildren ind chs).2.length
        ≤ sumPos ind := by
  have decrStep : ∀ (ind : List (String × Int)) (c : String),
      sumPos (decr ind c) +
        (if alookup (decr ind c) c = some 0 then 1 else 0) ≤ sumPos ind := by
    intro ind c
    induction ind with
    | nil => simp [decr, alookup, sumPos]
    | cons p tl ih =>
      obtain ⟨m, v⟩ := p
      by_cases h : m = c
      · subst h
        simp [decr, alookup, sumPos]
        split <;> omega
      · simp only [decr, alookup, if_neg h, sumPos, List.map_cons, List.sum_cons]
        simp only [sumPos] at ih
        omega
  induction chs with
  | nil => intro ind; simp [processChildren]
  | cons c tl ih =>
    intro ind
    have h1 := decrStep ind c
    have h2 := ih (decr ind c)
    simp only [processChildren, List.length_append]
    by_cases h : alookup (decr ind c) c = some 0
    · simp only [if_pos h] at *
      simp only [List.length_cons, List.length_nil]
      omega
    · simp only [if_neg h] at *
      simp only [List.length_nil]
      omega

/-- Running the while loop from any state satisfying the invariant ends
in a state satisfying it with an empty queue, returning the reversed
accumulator. -/
theorem topoLoop_post (cfgs : List (String × TaskCfg))
    (hnd : (cfgs.map Prod.fst).Nodup) :
    ∀ (N : Nat) (indeg : List (String × Int)) (q order : List String),
      sumPos indeg + q.length ≤ N →
      KahnInv cfgs indeg q order →
      ∃ indeg2 acc, topoLoop (initChild cfgs) indeg q order = acc.reverse ∧
        KahnInv cfgs indeg2 [] acc := by
  intro N
  induction N with
  | zero =>
    intro indeg q order hm inv
    cases q with
    | nil =>
      rw [topoLoop]
      exact ⟨indeg, order, rfl, inv⟩
    | cons a t =>
      exfalso
      simp only [List.length_cons] at hm
      omega
  | succ N ih =>
    intro indeg q order hm inv
    cases q with
    | nil =>
      rw [topoLoop]
      exact ⟨indeg, order, rfl, inv⟩
    | cons n q' =>
      rw [topoLoop]
      apply ih
      · have := processChildren_measure ((alookup (initChild cfgs) n).getD []) indeg
        simp only [List.length_append, List.length_cons] at hm ⊢
        omega
      · exact kahnStep cfgs hnd indeg n q' order inv

/-- The invariant holds on entry to the while loop. -/
theorem kahnInit (cfgs : List (String × TaskCfg))
    (hnd : (cfgs.map Prod.fst).Nodup) :
    KahnInv cfgs (initIndeg cfgs)
      ((initIndeg cfgs).filterMap (fun p => if p.2 = 0 then some p.1 else none))
      [] := by
  have hkeys : (initIndeg cfgs).map Prod.fst = cfgs.map Prod.fst := by
    unfold initIndeg
    rw [List.map_map]
    rfl
  have hpd0 : ∀ n, pendingDeg cfgs [] n = (depsOf cfgs n).length := by
    intro n
    simp [pendingDeg]
  have hdeg : ∀ n ∈ cfgs.map Prod.fst,
      alookup (initIndeg cfgs) n = some ((pendingDeg cfgs [] n : Int)) := by
    intro n hn
    obtain ⟨p, hp, he⟩ := List.mem_map.mp hn
    have hmm : (n, p.2) ∈ cfgs := by
      rw [← he]
      exact hp
    have hl : alookup cfgs n = some p.2 := alookup_of_mem_nodup cfgs n p.2 hnd hmm
    rw [alookup_initIndeg, hl, hpd0]
    simp [depsOf, hl]
  have hsubl : ∀ (m : List (String × Int)),
      (m.filterMap (fun p => if p.2 = 0 then some p.1 else none)).Sublist
        (m.map Prod.fst) := by
    intro m
    induction m with
    | nil => simp
    | cons p t ihm =>
      by_cases hc : p.2 = 0
      · simp only [List.filterMap_cons, if_pos hc, List.map_cons]
        exact ihm.cons₂ _
      · simp only [List.filterMap_cons, if_neg hc, List.map_cons]
        exact ihm.cons _
  have hq0 := hsubl (initIndeg cfgs)
  rw [hkeys] at hq0
  refine ⟨hkeys, hdeg, List.nodup_nil, by simp, hq0.nodup hnd,
    fun n hn => hq0.subset hn, by simp, ?_, by simp, ?_⟩
  · intro n hn
    constructor
    · intro hq
      obtain ⟨p, hp, he⟩ := List.mem_filterMap.mp hq
      by_cases hc : p.2 = 0
      · rw [if_pos hc] at he
        injection he with he1
        have hmem : (n, p.2) ∈ initIndeg cfgs := by
          rw [← he1]
          exact hp
        have hl : alookup (initIndeg cfgs) n = some p.2 :=
          alookup_of_mem_nodup _ _ _ (by rw [hkeys]; exact hnd) hmem
        rw [hdeg n hn] at hl
        injection hl with he2
        refine ⟨by simp, ?_⟩
        omega
      · rw [if_neg hc] at he
        exact absurd he (by simp)
    · rintro ⟨-, hpd⟩
      have hl : alookup (initIndeg cfgs) n = some 0 := by
        rw [hdeg n hn, hpd]
        rfl
      have hmem : (n, (0 : Int)) ∈ initIndeg cfgs := alookup_mem _ _ _ hl
      exact List.mem_filterMap.mpr ⟨(n, 0), hmem, by simp⟩
  · intro pre n post hsplit
    exact absurd hsplit (by simp)

/-- At loop exit every task has been output: otherwise the unprocessed
task of least rank would still have an unprocessed dependency of smaller
rank. -/
theorem kahnComplete (cfgs : List (String × TaskCfg))
    (hres : ∀ p ∈ cfgs, ∀ d ∈ p.2.depends_on, d ∈ cfgs.map Prod.fst)
    (rank : String → Nat)
    (hrank : ∀ p ∈ cfgs, ∀ d ∈ p.2.depends_on, rank d < rank p.1)
    (indeg : List (String × Int)) (acc : List String)
    (inv : KahnInv cfgs indeg [] acc) :
    ∀ n ∈ cfgs.map Prod.fst, n ∈ acc := by
  suffices h : ∀ (k : Nat) (n), n ∈ cfgs.map Prod.fst → rank n < k → n ∈ acc by
    intro n hn
    exact h (rank n + 1) n hn (by omega)
  intro k
  induction k with
  | zero =>
    intro n hn h
    omega
  | succ k ihk =>
    intro n hn hlt
    by_contra hno
    have hpd : pendingDeg cfgs acc n ≠ 0 := by
      intro h0
      exact absurd ((inv.q_iff n hn).mpr ⟨hno, h0⟩) (List.not_mem_nil n)
    have hpos : 0 < pendingDeg cfgs acc n := Nat.pos_of_ne_zero hpd
    unfold pendingDeg at hpos
    rw [← List.countP_eq_length_filter] at hpos
    obtain ⟨d, hd, hdec⟩ := List.countP_pos_iff.mp hpos
    have hdno : d ∉ acc := of_decide_eq_true hdec
    have hentry : ∃ c, alookup cfgs n = some c := by
      cases hc : alookup cfgs n with
      | none => exact absurd hn ((alookup_eq_none cfgs n).mp hc)
      | some c => exact ⟨c, rfl⟩
    obtain ⟨c, hc⟩ := hentry
    have hdeps : depsOf cfgs n = c.depends_on := by simp [depsOf, hc]
    have hcm : (n, c) ∈ cfgs := alookup_mem _ _ _ hc
    rw [hdeps] at hd
    have hdkey : d ∈ cfgs.map Prod.fst := hres (n, c) hcm d hd
    have hdrank : rank d < rank n := hrank (n, c) hcm d hd
    exact hdno (ihk d hdkey (by omega))

/-- C4: on a mapping with distinct names whose dependencies all resolve
and whose dependency graph is acyclic (admits a rank function that
strictly drops along dependency edges), Kahn's algorithm as implemented
in topo_order returns an ordering that lists every task exactly once and
places each task after all of its dependencies; and in general the
function fails with ValueError("dependency cycle") exactly when the
produced ordering does not cover all tasks. -/
theorem claim_C4 :
    (∀ (cfgs : List (String × TaskCfg)),
      (cfgs.map Prod.fst).Nodup →
      (∀ p ∈ cfgs, ∀ d ∈ p.2.depends_on, d ∈ cfgs.map Prod.fst) →
      (∃ rank : String → Nat,
        ∀ p ∈ cfgs, ∀ d ∈ p.2.depends_on, rank d < rank p.1) →
      ∃ ord, topo_order cfgs = Except.ok ord ∧ ord.Perm (cfgs.map Prod.fst) ∧
        ∀ pre m post, ord = pre ++ m :: post → ∀ d ∈ depsOf cfgs m, d ∈ pre) ∧
    (∀ cfgs : List (String × TaskCfg),
      topo_order cfgs = Except.error "dependency cycle" ↔
        (kahnOrder cfgs).length ≠ cfgs.length) := by
  constructor
  · intro cfgs hnd hres hacy
    obtain ⟨rank, hrank⟩ := hacy
    have hinit := kahnInit cfgs hnd
    obtain ⟨indeg2, acc, hres2, hinv⟩ := topoLoop_post cfgs hnd _ _ _ _ le_rfl hinit
    have hall := kahnComplete cfgs hres rank hrank indeg2 acc hinv
    have hperm : acc.Perm (cfgs.map Prod.fst) :=
      (hinv.order_nodup.subperm (fun n hn => hinv.order_sub n hn)).antisymm
        (hnd.subperm (fun n hn => hall n hn))
    have hordEq : kahnOrder cfgs = acc.reverse := hres2
    have hlen : (kahnOrder cfgs).length = cfgs.length := by
      rw [hordEq, List.length_reverse, hperm.length_eq, List.length_map]
    refine ⟨kahnOrder cfgs, ?_, ?_, ?_⟩
    · unfold topo_order
      rw [if_neg (by simp [hlen])]
    · rw [hordEq]
      exact (List.reverse_perm acc).trans hperm
    · intro pre m post hsplit d hd
      have hrev : acc.reverse = pre ++ m :: post := by
        rw [← hordEq]
        exact hsplit
      have hacc : acc = post.reverse ++ m :: pre.reverse := by
        calc acc = acc.reverse.reverse := (List.reverse_reverse acc).symm
          _ = (pre ++ m :: post).reverse := by rw [hrev]
          _ = (m :: post).reverse ++ pre.reverse := List.reverse_append _ _
          _ = (post.reverse ++ [m]) ++ pre.reverse := by rw [List.reverse_cons]
          _ = post.reverse ++ m :: pre.reverse := by
            rw [List.append_assoc]
            rfl
      have hmem := hinv.order_sorted post.reverse m pre.reverse hacc d hd
      exact List.mem_reverse.mp hmem
  · intro cfgs
    unfold topo_order
    constructor
    · intro h
      by_cases hc : (kahnOrder cfgs).length ≠ cfgs.length
      · exact hc
      · rw [if_neg hc] at h
        exact absurd h (by simp)
    · intro h
      rw [if_pos h]

/-- Witness for C4 at the two-task chain listed dependent-first. -/
theorem claim_C4_witness :
    (planCfgs.map Prod.fst).Nodup ∧
    (∀ p ∈ planCfgs, ∀ d ∈ p.2.depends_on, d ∈ planCfgs.map Prod.fst) ∧
    (∃ ord, topo_order planCfgs = Except.ok ord ∧
      ord.Perm (planCfgs.map Prod.fst) ∧
      ∀ pre m post, ord = pre ++ m :: post → ∀ d ∈ depsOf planCfgs m, d ∈ pre) :=
  ⟨by decide, by decide,
    claim_C4.1 planCfgs (by decide) (by decide)
      ⟨fun s => if s = "b" then 1 else 0, by decide⟩⟩

/-- C8 as amended: only an unrecognised task kind is fatal inside
load_config; the orchestrator is constructed from any parsed mapping
without validation; a dependency cycle, and equally an unresolvable
dependency name, surfaces only when `run()` hands the mapping to
topo_order, which raises ValueError("dependency cycle"); duplicate task
names are silently collapsed, the later row winning. -/
theorem claim_C8_amended :
    (∀ raw : RawConfig,
        (∃ row ∈ raw.task, parseKind (row.kind.getD "oneshot") = none) →
        (load_config raw).isOk = false) ∧
    (∀ cfgs : List (String × TaskCfg),
        (mkBackend cfgs).rt.map (fun p => (p.1, p.2.cfg)) = cfgs ∧
        ((kahnOrder cfgs).length ≠ cfgs.length →
          runPlan (mkBackend cfgs) = Except.error "dependency cycle")) ∧
    (load_config dupRaw).toOption.map
      (fun p => p.1.map (fun q => (q.1, q.2.cmd))) = some [("x", "second")] ∧
    (∀ cfgs : List (String × TaskCfg),
        (cfgs.map Prod.fst).Nodup →
        (∃ p ∈ cfgs, ∃ d ∈ p.2.depends_on, d ∉ cfgs.map Prod.fst) →
        runPlan (mkBackend cfgs) = Except.error "dependency cycle") := by
  refine ⟨?_, ?_, by decide, ?_⟩
  · intro raw hex
    obtain ⟨row, hrow, hbad⟩ := hex
    unfold load_config
    apply bind_isOk_false
    apply foldlM_err _ row _ _ hrow
    intro s
    simp only [hbad]
    rfl
  · intro cfgs
    refine ⟨mkBackend_cfgs cfgs, ?_⟩
    intro hlen
    unfold runPlan
    rw [mkBackend_cfgs cfgs]
    unfold topo_order
    rw [if_pos hlen]
  · intro cfgs hnd hex
    obtain ⟨pr, hpr, d, hd, hdk⟩ := hex
    have hnkey : pr.1 ∈ cfgs.map Prod.fst := List.mem_map.mpr ⟨pr, hpr, rfl⟩
    have hlook : alookup cfgs pr.1 = some pr.2 :=
      alookup_of_mem_nodup cfgs pr.1 pr.2 hnd hpr
    have hdeps : d ∈ depsOf cfgs pr.1 := by
      simpa [depsOf, hlook] using hd
    have hinit := kahnInit cfgs hnd
    obtain ⟨indeg2, acc, hres2, hinv⟩ := topoLoop_post cfgs hnd _ _ _ _ le_rfl hinit
    have hdacc : d ∉ acc := fun h => hdk (hinv.order_sub d h)
    have hnacc : pr.1 ∉ acc := by
      intro h
      have h0 := hinv.order_deg pr.1 h
      have hpos : 0 < pendingDeg cfgs acc pr.1 := by
        unfold pendingDeg
        rw [← List.countP_eq_length_filter]
        exact List.countP_pos_iff.mpr ⟨d, hdeps, by simp [hdacc]⟩
      omega
    have hsub : acc ⊆ (cfgs.map Prod.fst).erase pr.1 := by
      intro a ha
      have hak : a ∈ cfgs.map Prod.fst := hinv.order_sub a ha
      have hane : a ≠ pr.1 := fun e => hnacc (e ▸ ha)
      exact (List.mem_erase_of_ne hane).mpr hak
    have hlen1 : acc.length ≤ ((cfgs.map Prod.fst).erase pr.1).length :=
      (hinv.order_nodup.subperm hsub).length_le
    have hlen2 : ((cfgs.map Prod.fst).erase pr.1).length =
        (cfgs.map Prod.fst).length - 1 := List.length_erase_of_mem hnkey
    have hpos3 : 0 < (cfgs.map Prod.fst).length := List.length_pos_of_mem hnkey
    have hordEq : kahnOrder cfgs = acc.reverse := hres2
    have hmap : (cfgs.map Prod.fst).length = cfgs.length := List.length_map _ _
    have hne : (kahnOrder cfgs).length ≠ cfgs.length := by
      rw [hordEq, List.length_reverse]
      omega
    unfold runPlan
    rw [mkBackend_cfgs cfgs]
    unfold topo_order
    rw [if_pos hne]

/-- Witness for C8 (amended): a bad kind fails the load; the two-cycle
mapping and the mapping whose task `solo` depends on the undefined name
`ghost` both construct a backend whose `run()` planning step fails with
the dependency-cycle ValueError. -/
theorem claim_C8_witness :
    (load_config
      { prefix_cmd := none, workdir := none, ready_timeout := none,
        max_lines := none,
        task := [{ name := some "x", kind := some "bogus", cmd := some "c",
                   depends_on := none, ready_cmd := none, workdir := none,
                   ready_timeout := none, max_lines := none }] }).isOk = false ∧
    (mkBackend cycCfgs).rt.map (fun p => (p.1, p.2.cfg)) = cycCfgs ∧
    runPlan (mkBackend cycCfgs) = Except.error "dependency cycle" ∧
    (ghostCfgs.map Prod.fst).Nodup ∧
    (∃ p ∈ ghostCfgs, ∃ d ∈ p.2.depends_on, d ∉ ghostCfgs.map Prod.fst) ∧
    runPlan (mkBackend ghostCfgs) = Except.error "dependency cycle" := by
  refine ⟨?_, (claim_C8_amended.2.1 cycCfgs).1, ?_, by decide, by decide, ?_⟩
  · apply claim_C8_amended.1
    refine ⟨{ name := some "x", kind := some "bogus", cmd := some "c",
              depends_on := none, ready_cmd := none, workdir := none,
              ready_timeout := none, max_lines := none }, ?_, ?_⟩
    · simp
    · decide
  · apply (claim_C8_amended.2.1 cycCfgs).2
    have hq : (initIndeg cycCfgs).filterMap
        (fun p => if p.2 = 0 then some p.1 else none) = [] := by decide
    unfold kahnOrder
    rw [hq, topoLoop]
    decide
  · exact claim_C8_amended.2.2.2 ghostCfgs (by decide) (by decide)
